import Mathlib

/-!
# Lending-pool backtest: FIFO position matching and pool accounting

A shallow embedding of `src/index.js`.

* JavaScript numbers are modelled as rationals (`ℚ`). The functions are first
  embedded with exact arithmetic; the section "Execution in binary64
  arithmetic" embeds them again with every operation rounded to binary64, and
  properties that depend on the outcome of a comparison of rounded values are
  settled there.
* A `moment` timestamp is modelled by its instant in milliseconds and its UTC
  offset in minutes (`Moment`), and `a.diff(b, 'days', true)` by the library's
  formula `(a - b - zoneDelta) / 864e5`.
* The module-level variables (`poolBalanceUSDC`, `totalLoss`, `openPositions`,
  `totalUserGrossProfit`, `totalUserNetProfit`, `totalInterestPaid`) are the
  fields of `State`, which every handler receives and returns.
* `console.log` lines are modelled as `LogEvent` values appended to
  `State.console`; number formatting is not modelled.
* The `while` loop of `handleCloseLong` is `closeLongLoop`, which runs on fuel.
-/

namespace HyperliquidBacktest

/-! ## Data model -/

/-- Timestamp object of the `moment` library, as `backtest` creates it with
`moment(row.time, 'DD/MM/YYYY - HH:mm:ss')`: `valueOf` is the instant in
milliseconds since the epoch, `utcOffset` the offset of local time from UTC at
that instant, in minutes. -/
structure Moment where
  valueOf : Int
  utcOffset : Int
deriving DecidableEq

/-- Timestamp at instant `ms` whose local time is UTC (`moment.utc(ms)`). -/
def utc (ms : Int) : Moment :=
  ⟨ms, 0⟩

/-- Trade object built by `backtest` from a spreadsheet row. -/
structure Trade where
  time : Moment
  coin : String
  dir : String
  px : ℚ
  sz : ℚ
deriving DecidableEq

/-- Element of `openPositions`, as pushed by `handleOpenLong`. -/
structure Position where
  size : ℚ
  openPrice : ℚ
  openTime : Moment
deriving DecidableEq

/-- Values printed by the summary at the end of `processTrades`. -/
structure Report where
  initialBalance : ℚ
  finalBalance : ℚ
  totalInterestEarned : ℚ
  totalLossBorne : ℚ
  overallProfit : ℚ
  totalUserGrossProfit : ℚ
  totalInterestPaidByUser : ℚ
  totalUserNetProfit : ℚ
deriving DecidableEq

/-- One `console.log` call of `src/index.js`, with the values it interpolates. -/
inductive LogEvent where
  | openedLong (sz px cost : ℚ)
  | insufficientUSDC
  | closedLong (sz px totalClosingValue totalInterest loss userGrossProfit userNetProfit : ℚ)
  | overCloseWarning (excess : ℚ)
  | summary (coin : String) (r : Report)
deriving DecidableEq

/-- Module-level mutable variables of `src/index.js`, plus the console output. -/
structure State where
  poolBalanceUSDC : ℚ
  totalLoss : ℚ
  openPositions : List Position
  totalUserGrossProfit : ℚ
  totalUserNetProfit : ℚ
  totalInterestPaid : ℚ
  console : List LogEvent
deriving DecidableEq

/-- Values of the module-level variables when the module is loaded. -/
def initialState : State where
  poolBalanceUSDC := 100000000
  totalLoss := 0
  openPositions := []
  totalUserGrossProfit := 0
  totalUserNetProfit := 0
  totalInterestPaid := 0
  console := []

/-- Constant `dailyInterestRate = 0.01`. -/
def dailyInterestRate : ℚ := 0.01

/-- Number of milliseconds in a day, the divisor of `diff(_, 'days', true)`. -/
def msPerDay : ℚ := 86400000

/-- Method `closeTime.diff(openTime, 'days', true)` of the `moment` library:
`(this - that - zoneDelta) / 864e5` with
`zoneDelta = (that.utcOffset() - this.utcOffset()) * 6e4`, where `this` is
`closeTime` and `that` is `openTime`. The difference of the instants is
corrected by the change of UTC offset, so the result is the difference of the
two local clock readings, in days, fractional. -/
def diffDays (closeTime openTime : Moment) : ℚ :=
  let zoneDelta : Int := (openTime.utcOffset - closeTime.utcOffset) * 60000
  ((closeTime.valueOf - openTime.valueOf - zoneDelta : Int) : ℚ) / msPerDay

/-! ## Interest -/

/-- Function `calculateInterest(position, closeTime, closedSize)`. -/
def calculateInterest (position : Position) (closeTime : Moment) (closedSize : ℚ) : ℚ :=
  let daysHeld : Int := Int.ceil (diffDays closeTime position.openTime)
  let interest := position.openPrice * closedSize * dailyInterestRate * (daysHeld : ℚ)
  interest

/-! ## Opening a long -/

/-- Function `handleOpenLong(trade)`. -/
def handleOpenLong (trade : Trade) (st : State) : State :=
  let cost := trade.px * trade.sz
  if st.poolBalanceUSDC ≥ cost then
    { st with
      poolBalanceUSDC := st.poolBalanceUSDC - cost
      openPositions := st.openPositions ++
        [{ size := trade.sz, openPrice := trade.px, openTime := trade.time }]
      console := st.console ++ [LogEvent.openedLong trade.sz trade.px cost] }
  else
    { st with console := st.console ++ [LogEvent.insufficientUSDC] }

/-! ## Closing a long -/

/-- Locals of one iteration of the matching loop of `handleCloseLong`, recorded
for each iteration; `oldestPosition` is `openPositions[0]` as read at the start
of the iteration. The source keeps no such record: it is a ghost trace. -/
structure Chunk where
  oldestPosition : Position
  closingSize : ℚ
  daysHeld : ℚ
  closingValue : ℚ
  interest : ℚ
  initialCost : ℚ
  toPool : ℚ
  profit : ℚ
deriving DecidableEq

/-- Variables the matching loop of `handleCloseLong` reads and writes: the two
module variables it touches, its `let` accumulators, and the ghost trace. -/
structure CloseLoopState where
  poolBalanceUSDC : ℚ
  openPositions : List Position
  remainingSize : ℚ
  totalClosingValue : ℚ
  totalInterest : ℚ
  totalInitialCost : ℚ
  positionsClosed : Nat
  userGrossProfit : ℚ
  chunks : List Chunk
deriving DecidableEq

/-- Body of the `while` loop of `handleCloseLong`, run with `openPositions[0]`
equal to `oldestPosition` and the remaining positions `rest`. -/
def closeLongBody (trade : Trade) (σ : CloseLoopState) (oldestPosition : Position)
    (rest : List Position) : CloseLoopState :=
  let closingSize := min σ.remainingSize oldestPosition.size
  let daysHeld := diffDays trade.time oldestPosition.openTime
  let closingValue := trade.px * closingSize
  let interest := calculateInterest oldestPosition trade.time closingSize
  let initialCost := closingSize * oldestPosition.openPrice
  let toPool := min closingValue initialCost
  let profit := max 0 (closingValue - initialCost)
  let newSize := oldestPosition.size - closingSize
  { poolBalanceUSDC := σ.poolBalanceUSDC + (toPool + interest)
    openPositions :=
      if newSize = 0 then rest else { oldestPosition with size := newSize } :: rest
    remainingSize := σ.remainingSize - closingSize
    totalClosingValue := σ.totalClosingValue + closingValue
    totalInterest := σ.totalInterest + interest
    totalInitialCost := σ.totalInitialCost + initialCost
    positionsClosed := σ.positionsClosed + 1
    userGrossProfit := σ.userGrossProfit + profit
    chunks := σ.chunks ++
      [{ oldestPosition := oldestPosition, closingSize := closingSize, daysHeld := daysHeld,
         closingValue := closingValue, interest := interest, initialCost := initialCost,
         toPool := toPool, profit := profit }] }

/-- Loop `while (remainingSize > 0 && openPositions.length > 0)` of
`handleCloseLong`, executing at most `fuel` iterations. -/
def closeLongLoop (trade : Trade) : Nat → CloseLoopState → CloseLoopState
  | 0, σ => σ
  | fuel + 1, σ =>
    match σ.openPositions with
    | [] => σ
    | oldestPosition :: rest =>
      if σ.remainingSize > 0 then
        closeLongLoop trade fuel (closeLongBody trade σ oldestPosition rest)
      else σ

/-- Loop variables of `handleCloseLong` on entry to the loop. -/
def closeLongInit (trade : Trade) (st : State) : CloseLoopState where
  poolBalanceUSDC := st.poolBalanceUSDC
  openPositions := st.openPositions
  remainingSize := trade.sz
  totalClosingValue := 0
  totalInterest := 0
  totalInitialCost := 0
  positionsClosed := 0
  userGrossProfit := 0
  chunks := []

/-- Loop variables of `handleCloseLong` when its loop has ended. The fuel is the
number of open positions; `closeLongRun_exit` shows the loop condition is false
in the state returned, so the loop has really ended. -/
def closeLongRun (trade : Trade) (st : State) : CloseLoopState :=
  closeLongLoop trade st.openPositions.length (closeLongInit trade st)

/-- Object returned by `handleCloseLong`. -/
structure CloseResult where
  userGrossProfit : ℚ
  userNetProfit : ℚ
  interestPaid : ℚ
deriving DecidableEq

/-- Function `handleCloseLong(trade)`: the returned object and the new state. -/
def handleCloseLong (trade : Trade) (st : State) : CloseResult × State :=
  let σ := closeLongRun trade st
  let loss := max 0 (σ.totalInitialCost - σ.totalClosingValue)
  let userNetProfit := σ.userGrossProfit - σ.totalInterest
  let closed := LogEvent.closedLong trade.sz trade.px σ.totalClosingValue σ.totalInterest loss
    σ.userGrossProfit userNetProfit
  let warning := if σ.remainingSize > 0 then [LogEvent.overCloseWarning σ.remainingSize] else []
  ({ userGrossProfit := σ.userGrossProfit
     userNetProfit := userNetProfit
     interestPaid := σ.totalInterest },
   { st with
     poolBalanceUSDC := σ.poolBalanceUSDC
     openPositions := σ.openPositions
     totalLoss := st.totalLoss + loss
     console := st.console ++ [closed] ++ warning })

/-! ## Replaying the trades -/

/-- Test `hay.startsWith(needle)` on character lists. -/
def startsWithChars : List Char → List Char → Bool
  | [], _ => true
  | _ :: _, [] => false
  | a :: needle, b :: hay => a == b && startsWithChars needle hay

/-- Test `hay.includes(needle)` on character lists. -/
def includesChars (needle : List Char) : List Char → Bool
  | [] => needle.isEmpty
  | c :: hay => startsWithChars needle (c :: hay) || includesChars needle hay

/-- Method `String.prototype.includes`. -/
def includes (hay needle : String) : Bool :=
  includesChars needle.toList hay.toList

/-- Callback of `trades.forEach` in `processTrades`. -/
def processTrade (coin : String) (st : State) (trade : Trade) : State :=
  if trade.coin = coin then
    if includes trade.dir "Open Long" then
      handleOpenLong trade st
    else if includes trade.dir "Close Long" then
      let r := handleCloseLong trade st
      { r.2 with
        totalUserGrossProfit := r.2.totalUserGrossProfit + r.1.userGrossProfit
        totalUserNetProfit := r.2.totalUserNetProfit + r.1.userNetProfit
        totalInterestPaid := r.2.totalInterestPaid + r.1.interestPaid }
    else st
  else st

/-- Statement `trades.forEach(...)` of `processTrades`. -/
def forEachTrade (coin : String) (trades : List Trade) (st : State) : State :=
  trades.foldl (processTrade coin) st

/-- Summary computed after the `forEach` of `processTrades`. -/
def report (st : State) : Report :=
  let initialBalance : ℚ := 100000000
  let finalBalance := st.poolBalanceUSDC
  let overallProfit := finalBalance - initialBalance
  { initialBalance := initialBalance
    finalBalance := finalBalance
    totalInterestEarned := st.totalInterestPaid
    totalLossBorne := st.totalLoss
    overallProfit := overallProfit
    totalUserGrossProfit := st.totalUserGrossProfit
    totalInterestPaidByUser := st.totalInterestPaid
    totalUserNetProfit := st.totalUserNetProfit }

/-- Function `processTrades(trades, coin)`. -/
def processTrades (trades : List Trade) (coin : String) (st : State) : State :=
  let st' := forEachTrade coin trades st
  { st' with console := st'.console ++ [LogEvent.summary coin (report st')] }

/-! ## Closed form of the matching loop

The functions below describe, by recursion on the ledger, what the loop of
`handleCloseLong` computes; `closeLongLoop_eq` proves that the loop computes
exactly this. They are used in proofs only. -/

/-- Ghost record of an iteration that closes `closingSize` of `p` for a trade
with price `px` and time `time`. -/
def mkChunk (px : ℚ) (time : Moment) (p : Position) (closingSize : ℚ) : Chunk where
  oldestPosition := p
  closingSize := closingSize
  daysHeld := diffDays time p.openTime
  closingValue := px * closingSize
  interest := calculateInterest p time closingSize
  initialCost := closingSize * p.openPrice
  toPool := min (px * closingSize) (closingSize * p.openPrice)
  profit := max 0 (px * closingSize - closingSize * p.openPrice)

/-- Chunks matched by a close of size `r` against the ledger, oldest first. -/
def fifoChunks (px : ℚ) (time : Moment) : List Position → ℚ → List Chunk
  | [], _ => []
  | p :: rest, r =>
    if 0 < r then
      if p.size ≤ r then mkChunk px time p p.size :: fifoChunks px time rest (r - p.size)
      else [mkChunk px time p r]
    else []

/-- Ledger left by a close of size `r`. -/
def fifoLedger : List Position → ℚ → List Position
  | [], _ => []
  | p :: rest, r =>
    if 0 < r then
      if p.size ≤ r then fifoLedger rest (r - p.size)
      else { p with size := p.size - r } :: rest
    else p :: rest

/-- Requested size left unmatched by a close of size `r`. -/
def fifoRemaining : List Position → ℚ → ℚ
  | [], r => r
  | p :: rest, r =>
    if 0 < r then
      if p.size ≤ r then fifoRemaining rest (r - p.size) else 0
    else r

/-- Total open size of a ledger. -/
def totalOpenSize (ledger : List Position) : ℚ :=
  (ledger.map (fun p => p.size)).sum

/-- Sum of a quantity over a list of chunks. -/
def sumChunks (f : Chunk → ℚ) (cs : List Chunk) : ℚ :=
  (cs.map f).sum

/-- Loss of one chunk as the specification defines it: the part of the
chunk's initial cost that its closing value does not cover. -/
def chunkLoss (c : Chunk) : ℚ :=
  max 0 (c.initialCost - c.closingValue)

/-! ## Run-level quantities -/

/-- Report printed by `processTrades(trades, coin)` when it starts in state `st`. -/
def printedReport (trades : List Trade) (coin : String) (st : State) : Report :=
  report (forEachTrade coin trades st)

/-- Two states hold the same values in the six module-level variables (they
may differ in what has been printed). -/
def sameVars (st st' : State) : Prop :=
  st.poolBalanceUSDC = st'.poolBalanceUSDC ∧ st.totalLoss = st'.totalLoss ∧
    st.openPositions = st'.openPositions ∧
    st.totalUserGrossProfit = st'.totalUserGrossProfit ∧
    st.totalUserNetProfit = st'.totalUserNetProfit ∧
    st.totalInterestPaid = st'.totalInterestPaid

/-- Cost at which the open positions were bought: sum of `openPrice * size`. -/
def ledgerValue (ledger : List Position) : ℚ :=
  (ledger.map (fun p => p.openPrice * p.size)).sum

/-- Book value of the pool: balance plus the cost of the open positions. -/
def bookValue (st : State) : ℚ :=
  st.poolBalanceUSDC + ledgerValue st.openPositions

/-- Sum of the per-chunk losses of the close that `processTrade` performs for
`trade` in state `st`; zero when the trade is not dispatched to
`handleCloseLong`. The branches are those of `processTrade`. -/
def tradeChunkLoss (coin : String) (st : State) (trade : Trade) : ℚ :=
  if trade.coin = coin then
    if includes trade.dir "Open Long" then 0
    else if includes trade.dir "Close Long" then
      sumChunks chunkLoss (closeLongRun trade st).chunks
    else 0
  else 0

/-- Sum of the per-chunk losses of all the closes of a replay from state `st`. -/
def runChunkLoss (coin : String) : List Trade → State → ℚ
  | [], _ => 0
  | trade :: rest, st =>
    tradeChunkLoss coin st trade + runChunkLoss coin rest (processTrade coin st trade)

/-! ## Execution in binary64 arithmetic

JavaScript numbers are IEEE 754 binary64 values, and every arithmetic
operation of `src/index.js` rounds its exact result to the nearest such value.
The definitions of this section repeat the functions above with that rounding
applied to each operation, in the order in which the source evaluates them.
Values stay rationals; `round64` rounds to 53 significant bits, ties to even.
The exponent range is not bounded, so overflow, subnormal numbers, `NaN` and
the sign of zero are not modelled. -/

namespace Binary64

/-- Number of halvings that bring `n` below 2, at most `fuel` of them; with
`fuel = n` this is the integer part of the base-2 logarithm of `n ≥ 1`. -/
def log2Aux : Nat → Nat → Nat
  | 0, _ => 0
  | fuel + 1, n => if n < 2 then 0 else log2Aux fuel (n / 2) + 1

/-- Integer part of the base-2 logarithm of `n ≥ 1`. -/
def log2 (n : Nat) : Nat :=
  log2Aux n n

/-- Fraction `(n / d) * 2 ^ s` as a numerator and a denominator. -/
def scale (n d : Nat) (s : Int) : Nat × Nat :=
  if 0 ≤ s then (n * 2 ^ s.toNat, d) else (n, d * 2 ^ (-s).toNat)

/-- Binary exponent `e` of the fraction `n / d > 0`: `2 ^ e ≤ n / d < 2 ^ (e + 1)`. -/
def exponent (n d : Nat) : Int :=
  let k : Int := (log2 n : Int) - (log2 d : Int)
  let t := scale n d (-k)
  if t.2 ≤ t.1 then k else k - 1

/-- Nearest binary64 value: the significand is rounded to 53 bits, to nearest,
ties to the even significand. -/
def round64 (q : ℚ) : ℚ :=
  if q = 0 then 0
  else
    let n := q.num.natAbs
    let d := q.den
    let e := exponent n d
    let t := scale n d (52 - e)
    let m := t.1 / t.2
    let r := t.1 % t.2
    let m' := if t.2 < 2 * r ∨ (2 * r = t.2 ∧ m % 2 = 1) then m + 1 else m
    let v : ℚ := mkRat ((m' * 2 ^ (e - 52).toNat : Nat) : Int) (2 ^ (52 - e).toNat)
    if q < 0 then -v else v

/-- Operator `+` of JavaScript. -/
def add (a b : ℚ) : ℚ :=
  round64 (a + b)

/-- Operator `-` of JavaScript. -/
def sub (a b : ℚ) : ℚ :=
  round64 (a - b)

/-- Operator `*` of JavaScript. -/
def mul (a b : ℚ) : ℚ :=
  round64 (a * b)

/-- Operator `/` of JavaScript. -/
def div (a b : ℚ) : ℚ :=
  round64 (a / b)

/-- Function `parseFloat` on a decimal numeral with exact value `q`. -/
def parseFloat (q : ℚ) : ℚ :=
  round64 q

/-- Constant `dailyInterestRate = 0.01`, the binary64 value nearest to 1/100. -/
def dailyInterestRate : ℚ :=
  round64 (1 / 100)

/-- Method `closeTime.diff(openTime, 'days', true)`: `(this - that - zoneDelta) / 864e5`
with `zoneDelta = (that.utcOffset() - this.utcOffset()) * 6e4`. -/
def diffDays (closeTime openTime : Moment) : ℚ :=
  let zoneDelta := mul (sub (openTime.utcOffset : ℚ) (closeTime.utcOffset : ℚ)) 60000
  div (sub (sub (closeTime.valueOf : ℚ) (openTime.valueOf : ℚ)) zoneDelta) 86400000

/-- Function `calculateInterest(position, closeTime, closedSize)`. -/
def calculateInterest (position : Position) (closeTime : Moment) (closedSize : ℚ) : ℚ :=
  let daysHeld : Int := Int.ceil (diffDays closeTime position.openTime)
  let interest :=
    mul (mul (mul position.openPrice closedSize) dailyInterestRate) (daysHeld : ℚ)
  interest

/-- Function `handleOpenLong(trade)`. -/
def handleOpenLong (trade : Trade) (st : State) : State :=
  let cost := mul trade.px trade.sz
  if st.poolBalanceUSDC ≥ cost then
    { st with
      poolBalanceUSDC := sub st.poolBalanceUSDC cost
      openPositions := st.openPositions ++
        [{ size := trade.sz, openPrice := trade.px, openTime := trade.time }]
      console := st.console ++ [LogEvent.openedLong trade.sz trade.px cost] }
  else
    { st with console := st.console ++ [LogEvent.insufficientUSDC] }

/-- Body of the `while` loop of `handleCloseLong`. -/
def closeLongBody (trade : Trade) (σ : CloseLoopState) (oldestPosition : Position)
    (rest : List Position) : CloseLoopState :=
  let closingSize := min σ.remainingSize oldestPosition.size
  let daysHeld := diffDays trade.time oldestPosition.openTime
  let closingValue := mul trade.px closingSize
  let interest := calculateInterest oldestPosition trade.time closingSize
  let initialCost := mul closingSize oldestPosition.openPrice
  let toPool := min closingValue initialCost
  let profit := max 0 (sub closingValue initialCost)
  let newSize := sub oldestPosition.size closingSize
  { poolBalanceUSDC := add σ.poolBalanceUSDC (add toPool interest)
    openPositions :=
      if newSize = 0 then rest else { oldestPosition with size := newSize } :: rest
    remainingSize := sub σ.remainingSize closingSize
    totalClosingValue := add σ.totalClosingValue closingValue
    totalInterest := add σ.totalInterest interest
    totalInitialCost := add σ.totalInitialCost initialCost
    positionsClosed := σ.positionsClosed + 1
    userGrossProfit := add σ.userGrossProfit profit
    chunks := σ.chunks ++
      [{ oldestPosition := oldestPosition, closingSize := closingSize, daysHeld := daysHeld,
         closingValue := closingValue, interest := interest, initialCost := initialCost,
         toPool := toPool, profit := profit }] }

/-- Loop `while (remainingSize > 0 && openPositions.length > 0)` of
`handleCloseLong`, executing at most `fuel` iterations. -/
def closeLongLoop (trade : Trade) : Nat → CloseLoopState → CloseLoopState
  | 0, σ => σ
  | fuel + 1, σ =>
    match σ.openPositions with
    | [] => σ
    | oldestPosition :: rest =>
      if σ.remainingSize > 0 then
        closeLongLoop trade fuel (closeLongBody trade σ oldestPosition rest)
      else σ

/-- Loop variables of `handleCloseLong` when its loop has ended. The fuel is the
number of open positions; `binary64_closeLongRun_exit` shows the loop condition
is false in the state returned. -/
def closeLongRun (trade : Trade) (st : State) : CloseLoopState :=
  closeLongLoop trade st.openPositions.length (closeLongInit trade st)

/-- Function `handleCloseLong(trade)`: the returned object and the new state. -/
def handleCloseLong (trade : Trade) (st : State) : CloseResult × State :=
  let σ := closeLongRun trade st
  let loss := max 0 (sub σ.totalInitialCost σ.totalClosingValue)
  let userNetProfit := sub σ.userGrossProfit σ.totalInterest
  let closed := LogEvent.closedLong trade.sz trade.px σ.totalClosingValue σ.totalInterest loss
    σ.userGrossProfit userNetProfit
  let warning := if σ.remainingSize > 0 then [LogEvent.overCloseWarning σ.remainingSize] else []
  ({ userGrossProfit := σ.userGrossProfit
     userNetProfit := userNetProfit
     interestPaid := σ.totalInterest },
   { st with
     poolBalanceUSDC := σ.poolBalanceUSDC
     openPositions := σ.openPositions
     totalLoss := add st.totalLoss loss
     console := st.console ++ [closed] ++ warning })

/-- Callback of `trades.forEach` in `processTrades`. -/
def processTrade (coin : String) (st : State) (trade : Trade) : State :=
  if trade.coin = coin then
    if includes trade.dir "Open Long" then
      handleOpenLong trade st
    else if includes trade.dir "Close Long" then
      let r := handleCloseLong trade st
      { r.2 with
        totalUserGrossProfit := add r.2.totalUserGrossProfit r.1.userGrossProfit
        totalUserNetProfit := add r.2.totalUserNetProfit r.1.userNetProfit
        totalInterestPaid := add r.2.totalInterestPaid r.1.interestPaid }
    else st
  else st

/-- Statement `trades.forEach(...)` of `processTrades`. -/
def forEachTrade (coin : String) (trades : List Trade) (st : State) : State :=
  trades.foldl (processTrade coin) st

end Binary64

/-! ## Example inputs -/

/-- Ledger of three positions opened at time 0: sizes 2, 2, 5 at prices 100, 200, 300. -/
def demoLedger : List Position :=
  [⟨2, 100, utc 0⟩, ⟨2, 200, utc 0⟩, ⟨5, 300, utc 0⟩]

/-- Initial state whose ledger is `demoLedger`. -/
def demoState : State :=
  { initialState with openPositions := demoLedger }

/-- Close Long of size `sz` at price 150, one and a half days after time 0. -/
def demoClose (sz : ℚ) : Trade :=
  ⟨utc 129600000, "ETH", "Close Long", 150, sz⟩

/-- State holding two positions of size 1 opened at prices 100 and 200. -/
def mixedState : State :=
  { initialState with openPositions := [⟨1, 100, utc 0⟩, ⟨1, 200, utc 0⟩] }

/-- Close Long of size 2 at price 150 at the time the positions were opened. -/
def mixedClose : Trade :=
  ⟨utc 0, "ETH", "Close Long", 150, 2⟩

/-- Replay that opens 1 unit at 100 and 1 unit at 200 and closes both at 150,
all at time 0, so that no interest accrues. -/
def mixedTrades : List Trade :=
  [⟨utc 0, "ETH", "Open Long", 100, 1⟩, ⟨utc 0, "ETH", "Open Long", 200, 1⟩, mixedClose]

/-- State of scenario 1 of the specification: balance 1,000,000, nothing open. -/
def scenarioState : State :=
  { initialState with poolBalanceUSDC := 1000000 }

/-- Scenario 1: Open Long 10 units at 100. -/
def scenario1Open : Trade :=
  ⟨utc 0, "ETH", "Open Long", 100, 10⟩

/-- Scenario 2: two days later, Close Long 10 units at 110. -/
def scenario2Close : Trade :=
  ⟨utc 172800000, "ETH", "Close Long", 110, 10⟩

/-- Scenario 3: Open Long 5 units at 200. -/
def scenario3Open : Trade :=
  ⟨utc 0, "ETH", "Open Long", 200, 5⟩

/-- Scenario 3: one day later, Close Long 5 units at 150. -/
def scenario3Close : Trade :=
  ⟨utc 86400000, "ETH", "Close Long", 150, 5⟩

/-- Open Long of size 0 at price 100. -/
def zeroSizeOpen : Trade :=
  ⟨utc 0, "ETH", "Open Long", 100, 0⟩

/-- Open Short of size 10 at price 100. -/
def shortOpen : Trade :=
  ⟨utc 0, "ETH", "Open Short", 100, 10⟩

/-- Berlin, 26/10/2024 12:00:00 local time (10:00 UTC, summer time, UTC+2). -/
def berlinOpenTime : Moment :=
  ⟨1729936800000, 120⟩

/-- Berlin, 27/10/2024 12:00:00 local time (11:00 UTC, winter time, UTC+1): 25
hours after `berlinOpenTime`, one calendar day later on the local clock. -/
def berlinCloseTime : Moment :=
  ⟨1730026800000, 60⟩

/-- Open Long 10 units at 100 at `berlinOpenTime`. -/
def berlinOpen : Trade :=
  ⟨berlinOpenTime, "ETH", "Open Long", 100, 10⟩

/-- Close Long 10 units at 110 at `berlinCloseTime`. -/
def berlinClose : Trade :=
  ⟨berlinCloseTime, "ETH", "Close Long", 110, 10⟩

/-- Open Long at price 100 and time 0 of the size `parseFloat` reads from a
decimal numeral of exact value `size`. -/
def floatOpen (size : ℚ) : Trade :=
  ⟨utc 0, "ETH", "Open Long", 100, Binary64.parseFloat size⟩

/-- Close Long at price 100 and time 0 of the size `parseFloat` reads from a
decimal numeral of exact value `size`. -/
def floatClose (size : ℚ) : Trade :=
  ⟨utc 0, "ETH", "Close Long", 100, Binary64.parseFloat size⟩

/-- Open Long of `parseFloat("33333333.333333336")` units at price 3: the exact
product exceeds 100,000,000 by `2 ^ (-27)`, the binary64 product is 100,000,000. -/
def roundedCostOpen : Trade :=
  ⟨utc 0, "ETH", "Open Long", 3, Binary64.parseFloat 33333333.333333336⟩

/-- State after Open Long 0.1, 0.1 and 0.2: total open size exactly
`parseFloat("0.4")`. -/
def exactCloseState : State :=
  Binary64.forEachTrade "ETH" [floatOpen 0.1, floatOpen 0.1, floatOpen 0.2] initialState

/-- State after Open Long 0.1, 0.3 and 0.9: total open size below
`parseFloat("1.3")`. -/
def residueState : State :=
  Binary64.forEachTrade "ETH" [floatOpen 0.1, floatOpen 0.3, floatOpen 0.9] initialState

/-- State after Open Long 0.1 and 0.4. -/
def splitState : State :=
  Binary64.forEachTrade "ETH" [floatOpen 0.1, floatOpen 0.4] initialState

/-- Test whether a console line is the over-close warning. -/
def isOverCloseWarning : LogEvent → Bool
  | LogEvent.overCloseWarning _ => true
  | _ => false

/-! ## The loop and its closed form -/

@[simp]
theorem utc_valueOf (ms : Int) : (utc ms).valueOf = ms :=
  rfl

@[simp]
theorem utc_utcOffset (ms : Int) : (utc ms).utcOffset = 0 :=
  rfl


theorem sumChunks_nil (f : Chunk → ℚ) : sumChunks f [] = 0 := by
  simp [sumChunks]

theorem sumChunks_cons (f : Chunk → ℚ) (c : Chunk) (cs : List Chunk) :
    sumChunks f (c :: cs) = f c + sumChunks f cs := by
  simp [sumChunks]

theorem closeLongLoop_done (trade : Trade) (fuel : Nat) (σ : CloseLoopState)
    (h : σ.remainingSize ≤ 0) : closeLongLoop trade fuel σ = σ := by
  cases fuel with
  | zero => rfl
  | succ n =>
    unfold closeLongLoop
    split
    · rfl
    · rw [if_neg (not_lt.mpr h)]

theorem closeLongLoop_nil (trade : Trade) (fuel : Nat) (σ : CloseLoopState)
    (h : σ.openPositions = []) : closeLongLoop trade fuel σ = σ := by
  cases fuel with
  | zero => rfl
  | succ n =>
    unfold closeLongLoop
    split
    · rfl
    · rename_i p rest hp
      rw [h] at hp
      cases hp

/-- With at least as much fuel as open positions, the loop computes the closed
form; in particular its result does not depend on the fuel. -/
theorem closeLongLoop_eq (trade : Trade) (ledger : List Position) :
    ∀ (fuel : Nat) (σ : CloseLoopState), σ.openPositions = ledger → ledger.length ≤ fuel →
      closeLongLoop trade fuel σ =
        { poolBalanceUSDC := σ.poolBalanceUSDC +
            sumChunks (fun c => c.toPool + c.interest)
              (fifoChunks trade.px trade.time ledger σ.remainingSize)
          openPositions := fifoLedger ledger σ.remainingSize
          remainingSize := fifoRemaining ledger σ.remainingSize
          totalClosingValue := σ.totalClosingValue +
            sumChunks (fun c => c.closingValue)
              (fifoChunks trade.px trade.time ledger σ.remainingSize)
          totalInterest := σ.totalInterest +
            sumChunks (fun c => c.interest)
              (fifoChunks trade.px trade.time ledger σ.remainingSize)
          totalInitialCost := σ.totalInitialCost +
            sumChunks (fun c => c.initialCost)
              (fifoChunks trade.px trade.time ledger σ.remainingSize)
          positionsClosed := σ.positionsClosed +
            (fifoChunks trade.px trade.time ledger σ.remainingSize).length
          userGrossProfit := σ.userGrossProfit +
            sumChunks (fun c => c.profit)
              (fifoChunks trade.px trade.time ledger σ.remainingSize)
          chunks := σ.chunks ++ fifoChunks trade.px trade.time ledger σ.remainingSize } := by
  induction ledger with
  | nil =>
    intro fuel σ hσ _
    rw [closeLongLoop_nil trade fuel σ hσ]
    cases σ
    simp_all [fifoChunks, fifoLedger, fifoRemaining, sumChunks_nil]
  | cons p rest ih =>
    intro fuel σ hσ hfuel
    cases fuel with
    | zero => simp at hfuel
    | succ n =>
      have hn : rest.length ≤ n := by simpa using hfuel
      by_cases hr : 0 < σ.remainingSize
      · unfold closeLongLoop
        rw [hσ]
        simp only [gt_iff_lt, hr, if_true]
        by_cases hle : p.size ≤ σ.remainingSize
        · have hbody : (closeLongBody trade σ p rest).openPositions = rest := by
            simp [closeLongBody, min_eq_right hle]
          rw [ih n _ hbody hn]
          simp [closeLongBody, min_eq_right hle, fifoChunks, fifoLedger, fifoRemaining, hr,
            hle, sumChunks_cons, mkChunk, add_assoc]
          omega
        · have hlt : σ.remainingSize < p.size := not_le.mp hle
          have hne : ¬ (p.size - σ.remainingSize = 0) := by
            intro h0
            linarith
          rw [closeLongLoop_done trade n _ (by simp [closeLongBody, min_eq_left hlt.le])]
          simp [closeLongBody, min_eq_left hlt.le, fifoChunks, fifoLedger, fifoRemaining, hr,
            hle, hne, sumChunks_cons, sumChunks_nil, mkChunk]
      · rw [closeLongLoop_done trade _ σ (not_lt.mp hr)]
        simp only [fifoChunks, fifoLedger, fifoRemaining, hr, if_false, sumChunks_nil]
        cases σ
        simp_all

/-- Closed form of the loop variables of `handleCloseLong` at loop exit. -/
theorem closeLongRun_eq (trade : Trade) (st : State) :
    closeLongRun trade st =
      { poolBalanceUSDC := st.poolBalanceUSDC +
          sumChunks (fun c => c.toPool + c.interest)
            (fifoChunks trade.px trade.time st.openPositions trade.sz)
        openPositions := fifoLedger st.openPositions trade.sz
        remainingSize := fifoRemaining st.openPositions trade.sz
        totalClosingValue :=
          sumChunks (fun c => c.closingValue)
            (fifoChunks trade.px trade.time st.openPositions trade.sz)
        totalInterest :=
          sumChunks (fun c => c.interest)
            (fifoChunks trade.px trade.time st.openPositions trade.sz)
        totalInitialCost :=
          sumChunks (fun c => c.initialCost)
            (fifoChunks trade.px trade.time st.openPositions trade.sz)
        positionsClosed := (fifoChunks trade.px trade.time st.openPositions trade.sz).length
        userGrossProfit :=
          sumChunks (fun c => c.profit)
            (fifoChunks trade.px trade.time st.openPositions trade.sz)
        chunks := fifoChunks trade.px trade.time st.openPositions trade.sz } := by
  unfold closeLongRun
  rw [closeLongLoop_eq trade st.openPositions _ _ rfl le_rfl]
  simp [closeLongInit]

/-- The loop result is the same for every fuel that is at least the number of
open positions: the fuel of `closeLongRun` never cuts the loop short. -/
theorem closeLongLoop_fuel_irrelevant (trade : Trade) (st : State) (fuel : Nat)
    (h : st.openPositions.length ≤ fuel) :
    closeLongLoop trade fuel (closeLongInit trade st) = closeLongRun trade st := by
  unfold closeLongRun
  rw [closeLongLoop_eq trade st.openPositions fuel _ rfl h,
    closeLongLoop_eq trade st.openPositions _ _ rfl le_rfl]

theorem fifo_exit (ledger : List Position) :
    ∀ r : ℚ, 0 < fifoRemaining ledger r → fifoLedger ledger r = [] := by
  induction ledger with
  | nil => intro r _; rfl
  | cons p rest ih =>
    intro r h
    by_cases hr : 0 < r
    · by_cases hle : p.size ≤ r
      · simp only [fifoRemaining, fifoLedger, hr, hle, if_true] at h ⊢
        exact ih _ h
      · simp [fifoRemaining, hr, hle] at h
    · simp only [fifoRemaining, hr, if_false] at h

/-- At the state returned by `closeLongRun` the loop condition
`remainingSize > 0 && openPositions.length > 0` is false. -/
theorem closeLongRun_exit (trade : Trade) (st : State) :
    ¬ ((closeLongRun trade st).remainingSize > 0 ∧
        (closeLongRun trade st).openPositions.length > 0) := by
  rw [closeLongRun_eq]
  rintro ⟨h1, h2⟩
  simp only [gt_iff_lt] at h1 h2
  rw [fifo_exit _ _ h1] at h2
  simp at h2

/-! ## Properties of the closed form -/

theorem totalOpenSize_nil : totalOpenSize [] = 0 := by
  simp [totalOpenSize]

theorem totalOpenSize_cons (p : Position) (rest : List Position) :
    totalOpenSize (p :: rest) = p.size + totalOpenSize rest := by
  simp [totalOpenSize]

theorem totalOpenSize_nonneg (ledger : List Position) (hpos : ∀ p ∈ ledger, 0 < p.size) :
    0 ≤ totalOpenSize ledger := by
  induction ledger with
  | nil => simp [totalOpenSize]
  | cons p rest ih =>
    rw [totalOpenSize_cons]
    have h1 : 0 < p.size := hpos p (List.mem_cons_self _ _)
    have h2 := ih (fun q hq => hpos q (List.mem_cons_of_mem _ hq))
    linarith

/-- Every chunk of the closed form is built by `mkChunk` from a ledger position. -/
theorem fifoChunks_mem (px : ℚ) (time : Moment) (ledger : List Position) :
    ∀ (r : ℚ) (c : Chunk), c ∈ fifoChunks px time ledger r →
      ∃ p ∈ ledger, c = mkChunk px time p c.closingSize := by
  induction ledger with
  | nil => intro r c h; simp [fifoChunks] at h
  | cons p rest ih =>
    intro r c h
    by_cases hr : 0 < r
    · by_cases hle : p.size ≤ r
      · simp only [fifoChunks, hr, hle, if_true, List.mem_cons] at h
        rcases h with h | h
        · exact ⟨p, List.mem_cons_self _ _, by rw [h]; rfl⟩
        · obtain ⟨q, hq, hc⟩ := ih _ c h
          exact ⟨q, List.mem_cons_of_mem _ hq, hc⟩
      · simp only [fifoChunks, hr, hle, if_true, if_false, List.mem_singleton] at h
        exact ⟨p, List.mem_cons_self _ _, by rw [h]; rfl⟩
    · simp [fifoChunks, hr] at h

/-- Shape of a FIFO close: the first `k` positions are closed in full and
removed, and at most the next one is reduced. -/
theorem fifo_shape (px : ℚ) (time : Moment) (ledger : List Position) :
    ∀ r : ℚ, ∃ k, k ≤ ledger.length ∧
      ((fifoChunks px time ledger r = (ledger.take k).map (fun p => mkChunk px time p p.size) ∧
          fifoLedger ledger r = ledger.drop k) ∨
        ∃ p rest c, ledger.drop k = p :: rest ∧ 0 < c ∧ c < p.size ∧
          fifoChunks px time ledger r =
            (ledger.take k).map (fun p => mkChunk px time p p.size) ++ [mkChunk px time p c] ∧
          fifoLedger ledger r = { p with size := p.size - c } :: rest) := by
  induction ledger with
  | nil => intro r; exact ⟨0, le_rfl, Or.inl ⟨rfl, rfl⟩⟩
  | cons p rest ih =>
    intro r
    by_cases hr : 0 < r
    · by_cases hle : p.size ≤ r
      · obtain ⟨k, hk, h⟩ := ih (r - p.size)
        refine ⟨k + 1, by simpa using hk, ?_⟩
        rcases h with ⟨h1, h2⟩ | ⟨q, rest', c, h1, h2, h3, h4, h5⟩
        · left
          simp [fifoChunks, fifoLedger, hr, hle, h1, h2]
        · right
          refine ⟨q, rest', c, by simpa using h1, h2, h3, ?_, ?_⟩
          · simp [fifoChunks, hr, hle, h4]
          · simp [fifoLedger, hr, hle, h5]
      · refine ⟨0, Nat.zero_le _, Or.inr ⟨p, rest, r, rfl, hr, not_le.mp hle, ?_, ?_⟩⟩
        · simp [fifoChunks, hr, hle]
        · simp [fifoLedger, hr, hle]
    · exact ⟨0, Nat.zero_le _, Or.inl ⟨by simp [fifoChunks, hr], by simp [fifoLedger, hr]⟩⟩

/-- Matched sizes sum to `min r T` on a ledger of positive sizes. -/
theorem fifoChunks_size_sum (px : ℚ) (time : Moment) (ledger : List Position) :
    ∀ r : ℚ, (∀ p ∈ ledger, 0 < p.size) → 0 ≤ r →
      sumChunks (fun c => c.closingSize) (fifoChunks px time ledger r) =
        min r (totalOpenSize ledger) := by
  induction ledger with
  | nil =>
    intro r _ hr
    simp [fifoChunks, sumChunks_nil, totalOpenSize_nil, hr]
  | cons p rest ih =>
    intro r hpos hr0
    have hp : 0 < p.size := hpos p (List.mem_cons_self _ _)
    have hrest : ∀ q ∈ rest, 0 < q.size := fun q hq => hpos q (List.mem_cons_of_mem _ hq)
    have hT := totalOpenSize_nonneg rest hrest
    rw [totalOpenSize_cons]
    by_cases hr : 0 < r
    · by_cases hle : p.size ≤ r
      · simp only [fifoChunks, hr, hle, if_true, sumChunks_cons]
        rw [ih (r - p.size) hrest (by linarith)]
        have : r = p.size + (r - p.size) := by ring
        conv_rhs => rw [this, min_add_add_left]
        rfl
      · simp only [fifoChunks, hr, hle, if_true, if_false, sumChunks_cons, sumChunks_nil]
        rw [min_eq_left (by linarith [not_le.mp hle])]
        simp [mkChunk]
    · have : r = 0 := le_antisymm (not_lt.mp hr) hr0
      subst this
      simp only [fifoChunks, lt_irrefl, if_false, sumChunks_nil]
      rw [min_eq_left (by linarith)]

/-- Size left in the ledger is `T - min r T` on a ledger of positive sizes. -/
theorem fifoLedger_size_sum (ledger : List Position) :
    ∀ r : ℚ, (∀ p ∈ ledger, 0 < p.size) → 0 ≤ r →
      totalOpenSize (fifoLedger ledger r) =
        totalOpenSize ledger - min r (totalOpenSize ledger) := by
  induction ledger with
  | nil =>
    intro r _ hr
    simp [fifoLedger, totalOpenSize_nil, hr]
  | cons p rest ih =>
    intro r hpos hr0
    have hp : 0 < p.size := hpos p (List.mem_cons_self _ _)
    have hrest : ∀ q ∈ rest, 0 < q.size := fun q hq => hpos q (List.mem_cons_of_mem _ hq)
    have hT := totalOpenSize_nonneg rest hrest
    by_cases hr : 0 < r
    · by_cases hle : p.size ≤ r
      · simp only [fifoLedger, hr, hle, if_true]
        rw [ih (r - p.size) hrest (by linarith), totalOpenSize_cons]
        have : r = p.size + (r - p.size) := by ring
        conv_rhs => rw [this, min_add_add_left]
        ring
      · simp only [fifoLedger, hr, hle, if_true, if_false, totalOpenSize_cons]
        rw [min_eq_left (by linarith [not_le.mp hle])]
        ring
    · have : r = 0 := le_antisymm (not_lt.mp hr) hr0
      subst this
      simp only [fifoLedger, lt_irrefl, if_false, totalOpenSize_cons]
      rw [min_eq_left (by linarith)]
      ring

/-- Unmatched remainder is `r - min r T` on a ledger of positive sizes. -/
theorem fifoRemaining_eq (ledger : List Position) :
    ∀ r : ℚ, (∀ p ∈ ledger, 0 < p.size) → 0 ≤ r →
      fifoRemaining ledger r = r - min r (totalOpenSize ledger) := by
  induction ledger with
  | nil =>
    intro r _ hr
    simp [fifoRemaining, totalOpenSize_nil, hr]
  | cons p rest ih =>
    intro r hpos hr0
    have hp : 0 < p.size := hpos p (List.mem_cons_self _ _)
    have hrest : ∀ q ∈ rest, 0 < q.size := fun q hq => hpos q (List.mem_cons_of_mem _ hq)
    have hT := totalOpenSize_nonneg rest hrest
    by_cases hr : 0 < r
    · by_cases hle : p.size ≤ r
      · simp only [fifoRemaining, hr, hle, if_true]
        rw [ih (r - p.size) hrest (by linarith), totalOpenSize_cons]
        have : r = p.size + (r - p.size) := by ring
        conv_rhs => rw [this, min_add_add_left]
        ring
      · simp only [fifoRemaining, hr, hle, if_true, if_false, totalOpenSize_cons]
        rw [min_eq_left (by linarith [not_le.mp hle])]
        ring
    · have : r = 0 := le_antisymm (not_lt.mp hr) hr0
      subst this
      simp only [fifoRemaining, lt_irrefl, if_false, totalOpenSize_cons]
      rw [min_eq_left (by linarith)]
      ring

/-- A close of at least the total open size matches every position in full. -/
theorem fifo_over_close (px : ℚ) (time : Moment) (ledger : List Position) :
    ∀ r : ℚ, (∀ p ∈ ledger, 0 < p.size) → totalOpenSize ledger ≤ r →
      fifoChunks px time ledger r = ledger.map (fun p => mkChunk px time p p.size) ∧
        fifoLedger ledger r = [] := by
  induction ledger with
  | nil => intro r _ _; exact ⟨rfl, rfl⟩
  | cons p rest ih =>
    intro r hpos hT
    have hp : 0 < p.size := hpos p (List.mem_cons_self _ _)
    have hrest : ∀ q ∈ rest, 0 < q.size := fun q hq => hpos q (List.mem_cons_of_mem _ hq)
    have hT' := totalOpenSize_nonneg rest hrest
    rw [totalOpenSize_cons] at hT
    have hr : 0 < r := by linarith
    have hle : p.size ≤ r := by linarith
    obtain ⟨h1, h2⟩ := ih (r - p.size) hrest (by linarith)
    simp [fifoChunks, fifoLedger, hr, hle, h1, h2]

/-- A close leaves only positive sizes in a ledger of positive sizes. -/
theorem fifoLedger_pos (ledger : List Position) :
    ∀ r : ℚ, (∀ p ∈ ledger, 0 < p.size) → ∀ p ∈ fifoLedger ledger r, 0 < p.size := by
  induction ledger with
  | nil => intro r _ p hp; simp [fifoLedger] at hp
  | cons q rest ih =>
    intro r hpos p hp
    have hrest : ∀ q ∈ rest, 0 < q.size := fun q hq => hpos q (List.mem_cons_of_mem _ hq)
    by_cases hr : 0 < r
    · by_cases hle : q.size ≤ r
      · simp only [fifoLedger, hr, hle, if_true] at hp
        exact ih _ hrest p hp
      · simp only [fifoLedger, hr, hle, if_true, if_false, List.mem_cons] at hp
        rcases hp with hp | hp
        · rw [hp]
          simp only
          linarith [not_le.mp hle]
        · exact hrest p hp
    · simp only [fifoLedger, hr, if_false] at hp
      exact hpos p hp

/-! ## Closing a long: FIFO matching and per-chunk accounting -/

/-- C1. FIFO matching: on a ledger of positive sizes, `handleCloseLong` consumes
positions from the front in insertion order. There is a `k` such that the
chunks are matched, in order, against the first `k` positions, each closed in
full, followed by at most one further chunk of size `c` with `0 < c < size`
against position `k`; the new ledger is the old one without its first `k`
positions, in which only that next position has its size reduced (by `c`) and
every other surviving position is unchanged. Every chunk has positive size. -/
theorem handleCloseLong_fifo (trade : Trade) (st : State)
    (hpos : ∀ p ∈ st.openPositions, 0 < p.size) :
    (∀ c ∈ (closeLongRun trade st).chunks, 0 < c.closingSize) ∧
    ∃ k, k ≤ st.openPositions.length ∧
      (((closeLongRun trade st).chunks.map (fun c => (c.oldestPosition, c.closingSize)) =
            (st.openPositions.take k).map (fun p => (p, p.size)) ∧
          (handleCloseLong trade st).2.openPositions = st.openPositions.drop k) ∨
        ∃ p rest c, st.openPositions.drop k = p :: rest ∧ 0 < c ∧ c < p.size ∧
          (closeLongRun trade st).chunks.map (fun c => (c.oldestPosition, c.closingSize)) =
            (st.openPositions.take k).map (fun p => (p, p.size)) ++ [(p, c)] ∧
          (handleCloseLong trade st).2.openPositions =
            { p with size := p.size - c } :: rest) := by
  have hrun : (handleCloseLong trade st).2.openPositions =
      (closeLongRun trade st).openPositions := rfl
  rw [hrun, closeLongRun_eq]
  simp only
  obtain ⟨k, hk, h⟩ := fifo_shape trade.px trade.time st.openPositions trade.sz
  have htake : ∀ p ∈ st.openPositions.take k, 0 < p.size :=
    fun p hp => hpos p (List.mem_of_mem_take hp)
  rcases h with ⟨h1, h2⟩ | ⟨p, rest, c, h1, h2, h3, h4, h5⟩
  · refine ⟨?_, k, hk, Or.inl ⟨?_, h2⟩⟩
    · intro c hc
      rw [h1, List.mem_map] at hc
      obtain ⟨q, hq, rfl⟩ := hc
      exact htake q hq
    · rw [h1, List.map_map]
      rfl
  · refine ⟨?_, k, hk, Or.inr ⟨p, rest, c, h1, h2, h3, ?_, h5⟩⟩
    · intro d hd
      rw [h4, List.mem_append, List.mem_map, List.mem_singleton] at hd
      rcases hd with ⟨q, hq, rfl⟩ | rfl
      · exact htake q hq
      · exact h2
    · rw [h4, List.map_append, List.map_map]
      rfl

/-- Witness for C1: a close of size 3 against sizes 2, 2, 5 closes the first
position in full and takes 1 from the second. -/
theorem handleCloseLong_fifo_witness :
    (∀ p ∈ demoState.openPositions, 0 < p.size) ∧
    (∀ c ∈ (closeLongRun (demoClose 3) demoState).chunks, 0 < c.closingSize) ∧
    (handleCloseLong (demoClose 3) demoState).2.openPositions = [⟨1, 200, utc 0⟩, ⟨5, 300, utc 0⟩] :=
  ⟨by norm_num [demoState, demoLedger],
    (handleCloseLong_fifo (demoClose 3) demoState (by norm_num [demoState, demoLedger])).1,
    by norm_num [handleCloseLong, closeLongRun, closeLongLoop, closeLongInit, closeLongBody,
      demoState, demoLedger, demoClose, initialState]⟩

/-- C2 (the code at the failing input). A close of size 2 at price 150 against
two positions of size 1 opened at 100 and 200 has two chunks: the first has
initial cost 100 and closing value 150, the second initial cost 200 and closing
value 150. The per-chunk losses `max(0, initialCost - closingValue)` sum to 50,
and the pool is credited only 250 of the 300 it paid for the two positions,
but `handleCloseLong` leaves `totalLoss` unchanged: it nets the totals of the
whole close, `max(0, 300 - 300) = 0`. Replayed from the initial state, the
summary then shows an overall profit of -50 with no interest and no loss. -/
theorem handleCloseLong_totalLoss_nets_chunks :
    (closeLongRun mixedClose mixedState).chunks.map
        (fun c => (c.initialCost, c.closingValue, c.toPool, c.profit)) =
      [(100, 150, 100, 50), (200, 150, 150, 0)] ∧
    sumChunks chunkLoss (closeLongRun mixedClose mixedState).chunks = 50 ∧
    (handleCloseLong mixedClose mixedState).2.poolBalanceUSDC =
      mixedState.poolBalanceUSDC + 250 ∧
    (handleCloseLong mixedClose mixedState).2.openPositions = [] ∧
    (handleCloseLong mixedClose mixedState).2.totalLoss = mixedState.totalLoss ∧
    (report (forEachTrade "ETH" mixedTrades initialState)).overallProfit = -50 ∧
    (report (forEachTrade "ETH" mixedTrades initialState)).totalInterestEarned = 0 ∧
    (report (forEachTrade "ETH" mixedTrades initialState)).totalLossBorne = 0 := by
  have h1 : includes "Open Long" "Open Long" = true := by decide
  have h2 : includes "Close Long" "Open Long" = false := by decide
  have h3 : includes "Close Long" "Close Long" = true := by decide
  refine ⟨?_, ?_, ?_, ?_, ?_, ?_, ?_, ?_⟩ <;>
    norm_num [report, forEachTrade, processTrade, h1, h2, h3, handleOpenLong, handleCloseLong,
      closeLongRun, closeLongLoop, closeLongInit, closeLongBody, mixedTrades, mixedState,
      mixedClose, initialState, calculateInterest, diffDays, sumChunks, chunkLoss]

/-- C3. Value conservation per chunk: every chunk matched by a Close Long has
`closingValue = px * closingSize` and `initialCost = closingSize * openPrice`,
and satisfies `toPool + profit = closingValue`, with `toPool = initialCost` and
`profit = closingValue - initialCost` when `closingValue ≥ initialCost`, and
`toPool = closingValue` and `profit = 0` otherwise; `toPool` never exceeds
`initialCost`. These chunk values are the ones accounted: the pool balance grows
by the sum of `toPool + interest` and the returned gross profit is the sum of
`profit`. -/
theorem handleCloseLong_chunk_conservation (trade : Trade) (st : State) :
    (∀ c ∈ (closeLongRun trade st).chunks,
      c.closingValue = trade.px * c.closingSize ∧
      c.initialCost = c.closingSize * c.oldestPosition.openPrice ∧
      c.toPool + c.profit = c.closingValue ∧
      (c.initialCost ≤ c.closingValue →
        c.toPool = c.initialCost ∧ c.profit = c.closingValue - c.initialCost) ∧
      (c.closingValue < c.initialCost → c.toPool = c.closingValue ∧ c.profit = 0) ∧
      c.toPool ≤ c.initialCost) ∧
    (handleCloseLong trade st).2.poolBalanceUSDC =
      st.poolBalanceUSDC +
        sumChunks (fun c => c.toPool + c.interest) (closeLongRun trade st).chunks ∧
    (handleCloseLong trade st).1.userGrossProfit =
      sumChunks (fun c => c.profit) (closeLongRun trade st).chunks := by
  have hbal : (handleCloseLong trade st).2.poolBalanceUSDC =
      (closeLongRun trade st).poolBalanceUSDC := rfl
  have hgross : (handleCloseLong trade st).1.userGrossProfit =
      (closeLongRun trade st).userGrossProfit := rfl
  rw [hbal, hgross, closeLongRun_eq]
  refine ⟨?_, rfl, rfl⟩
  intro c hc
  obtain ⟨p, _, hp⟩ := fifoChunks_mem trade.px trade.time st.openPositions trade.sz c hc
  rw [hp]
  simp only [mkChunk]
  refine ⟨trivial, trivial, ?_, ?_, ?_, min_le_right _ _⟩
  · rcases le_total (trade.px * c.closingSize) (c.closingSize * p.openPrice) with h | h
    · rw [min_eq_left h, max_eq_left (by linarith)]
      ring
    · rw [min_eq_right h, max_eq_right (by linarith)]
      ring
  · intro h
    exact ⟨min_eq_right h, max_eq_right (by linarith)⟩
  · intro h
    exact ⟨min_eq_left h.le, max_eq_left (by linarith)⟩

/-- Witness for C3: the two chunks of the close of `mixedState`, one closed
above and one below its initial cost, both satisfy `toPool + profit =
closingValue`. -/
theorem handleCloseLong_chunk_conservation_witness :
    (closeLongRun mixedClose mixedState).chunks.map (fun c => (c.toPool, c.profit)) =
      [(100, 50), (150, 0)] ∧
    ∀ c ∈ (closeLongRun mixedClose mixedState).chunks, c.toPool + c.profit = c.closingValue :=
  ⟨by norm_num [closeLongRun, closeLongLoop, closeLongInit, closeLongBody, mixedState,
      mixedClose, initialState, calculateInterest, diffDays],
    fun c hc => ((handleCloseLong_chunk_conservation mixedClose mixedState).1 c hc).2.2.1⟩

/-! ## Net profit identity -/

theorem handleOpenLong_totals (trade : Trade) (st : State) :
    (handleOpenLong trade st).totalLoss = st.totalLoss ∧
    (handleOpenLong trade st).totalUserGrossProfit = st.totalUserGrossProfit ∧
    (handleOpenLong trade st).totalUserNetProfit = st.totalUserNetProfit ∧
    (handleOpenLong trade st).totalInterestPaid = st.totalInterestPaid := by
  unfold handleOpenLong
  simp only
  split <;> exact ⟨rfl, rfl, rfl, rfl⟩

theorem processTrade_netIdentity (coin : String) (st : State) (trade : Trade)
    (h : st.totalUserNetProfit = st.totalUserGrossProfit - st.totalInterestPaid) :
    (processTrade coin st trade).totalUserNetProfit =
      (processTrade coin st trade).totalUserGrossProfit -
        (processTrade coin st trade).totalInterestPaid := by
  unfold processTrade
  split
  · split
    · obtain ⟨_, h1, h2, h3⟩ := handleOpenLong_totals trade st
      rw [h1, h2, h3]
      exact h
    · split
      · simp only [handleCloseLong]
        rw [h]
        ring
      · exact h
  · exact h

theorem forEachTrade_netIdentity (coin : String) (trades : List Trade) :
    ∀ st : State, st.totalUserNetProfit = st.totalUserGrossProfit - st.totalInterestPaid →
      (forEachTrade coin trades st).totalUserNetProfit =
        (forEachTrade coin trades st).totalUserGrossProfit -
          (forEachTrade coin trades st).totalInterestPaid := by
  induction trades with
  | nil => intro st h; exact h
  | cons t rest ih =>
    intro st h
    exact ih _ (processTrade_netIdentity coin st t h)

/-- C4. Net profit identity: the object returned by `handleCloseLong` satisfies
`userNetProfit = userGrossProfit - interestPaid`; and when `processTrades`
starts from zeroed totals, after every trade (after any number `n` of trades
of the sequence) and in the state it ends in,
`totalUserNetProfit = totalUserGrossProfit - totalInterestPaid`. -/
theorem net_profit_identity (trade : Trade) (st : State) (trades : List Trade) (coin : String)
    (st0 : State) (hg : st0.totalUserGrossProfit = 0) (hn : st0.totalUserNetProfit = 0)
    (hi : st0.totalInterestPaid = 0) :
    (handleCloseLong trade st).1.userNetProfit =
      (handleCloseLong trade st).1.userGrossProfit - (handleCloseLong trade st).1.interestPaid ∧
    (∀ n : Nat,
      (forEachTrade coin (trades.take n) st0).totalUserNetProfit =
        (forEachTrade coin (trades.take n) st0).totalUserGrossProfit -
          (forEachTrade coin (trades.take n) st0).totalInterestPaid) ∧
    (processTrades trades coin st0).totalUserNetProfit =
      (processTrades trades coin st0).totalUserGrossProfit -
        (processTrades trades coin st0).totalInterestPaid := by
  have h0 : st0.totalUserNetProfit = st0.totalUserGrossProfit - st0.totalInterestPaid := by
    rw [hg, hn, hi]
    norm_num
  refine ⟨rfl, fun n => forEachTrade_netIdentity coin _ st0 h0, ?_⟩
  exact forEachTrade_netIdentity coin trades st0 h0

/-- Witness for C4: scenarios 1 and 2 replayed by `processTrades` end with gross
profit 100, interest 20 and net profit 80. -/
theorem net_profit_identity_witness :
    (processTrades [scenario1Open, scenario2Close] "ETH" scenarioState).totalUserGrossProfit
      = 100 ∧
    (processTrades [scenario1Open, scenario2Close] "ETH" scenarioState).totalInterestPaid
      = 20 ∧
    (processTrades [scenario1Open, scenario2Close] "ETH" scenarioState).totalUserNetProfit =
      (processTrades [scenario1Open, scenario2Close] "ETH" scenarioState).totalUserGrossProfit -
        (processTrades [scenario1Open, scenario2Close] "ETH" scenarioState).totalInterestPaid :=
  ⟨by
      have h1 : includes "Open Long" "Open Long" = true := by decide
      have h2 : includes "Close Long" "Open Long" = false := by decide
      have h3 : includes "Close Long" "Close Long" = true := by decide
      norm_num [processTrades, forEachTrade, processTrade, h1, h2, h3, handleOpenLong,
        handleCloseLong, closeLongRun, closeLongLoop, closeLongInit, closeLongBody, initialState,
        scenarioState, scenario1Open, scenario2Close, calculateInterest, diffDays, msPerDay,
        dailyInterestRate],
    by
      have h1 : includes "Open Long" "Open Long" = true := by decide
      have h2 : includes "Close Long" "Open Long" = false := by decide
      have h3 : includes "Close Long" "Close Long" = true := by decide
      norm_num [processTrades, forEachTrade, processTrade, h1, h2, h3, handleOpenLong,
        handleCloseLong, closeLongRun, closeLongLoop, closeLongInit, closeLongBody, initialState,
        scenarioState, scenario1Open, scenario2Close, calculateInterest, diffDays, msPerDay,
        dailyInterestRate],
    (net_profit_identity scenario2Close scenarioState [scenario1Open, scenario2Close] "ETH"
      scenarioState rfl rfl rfl).2.2⟩

/-! ## Opening a long -/

theorem handleOpenLong_of_le (trade : Trade) (st : State)
    (h : trade.px * trade.sz ≤ st.poolBalanceUSDC) :
    handleOpenLong trade st =
      { st with
        poolBalanceUSDC := st.poolBalanceUSDC - trade.px * trade.sz
        openPositions := st.openPositions ++
          [{ size := trade.sz, openPrice := trade.px, openTime := trade.time }]
        console := st.console ++
          [LogEvent.openedLong trade.sz trade.px (trade.px * trade.sz)] } := by
  unfold handleOpenLong
  simp only [ge_iff_le]
  rw [if_pos h]

/-- C6. Accepted open: when the cost `px * sz` of an Open Long is at most the
pool balance, `handleOpenLong` decreases the balance by exactly the cost,
appends exactly one position `{size = sz, openPrice = px, openTime = time}` at
the tail of the ledger, keeping the earlier positions and their order, and
leaves `totalLoss` and the three user totals unchanged. -/
theorem handleOpenLong_accepted (trade : Trade) (st : State)
    (h : trade.px * trade.sz ≤ st.poolBalanceUSDC) :
    (handleOpenLong trade st).poolBalanceUSDC = st.poolBalanceUSDC - trade.px * trade.sz ∧
    (handleOpenLong trade st).openPositions =
      st.openPositions ++ [{ size := trade.sz, openPrice := trade.px, openTime := trade.time }] ∧
    (handleOpenLong trade st).totalLoss = st.totalLoss ∧
    (handleOpenLong trade st).totalUserGrossProfit = st.totalUserGrossProfit ∧
    (handleOpenLong trade st).totalUserNetProfit = st.totalUserNetProfit ∧
    (handleOpenLong trade st).totalInterestPaid = st.totalInterestPaid := by
  rw [handleOpenLong_of_le trade st h]
  exact ⟨rfl, rfl, rfl, rfl, rfl, rfl⟩

/-- Witness for C6: scenario 1, the open of 10 units at 100 against a balance
of 1,000,000 leaves 999,000 and one position of size 10 at price 100. -/
theorem handleOpenLong_accepted_witness :
    scenario1Open.px * scenario1Open.sz ≤ scenarioState.poolBalanceUSDC ∧
    (handleOpenLong scenario1Open scenarioState).poolBalanceUSDC = 999000 ∧
    (handleOpenLong scenario1Open scenarioState).openPositions = [⟨10, 100, utc 0⟩] := by
  have h : scenario1Open.px * scenario1Open.sz ≤ scenarioState.poolBalanceUSDC := by
    norm_num [scenario1Open, scenarioState, initialState]
  refine ⟨h, ?_, ?_⟩
  · rw [(handleOpenLong_accepted scenario1Open scenarioState h).1]
    norm_num [scenario1Open, scenarioState, initialState]
  · rw [(handleOpenLong_accepted scenario1Open scenarioState h).2.1]
    simp [scenario1Open, scenarioState, initialState]

/-! ## Size conservation and over-close -/

/-- Size conservation and over-close when the subtractions of the loop are
exact (rational arithmetic, not the binary64 arithmetic of the program): on a
ledger of positive sizes with
total open size `T`, a Close Long of size `s ≥ 0` matches chunks whose sizes
sum to `min s T`, leaves total size `T - min s T` in the ledger, and leaves
`s - min s T` unmatched. The console receives the close line followed by the
over-close warning, naming the excess `s - T`, exactly when `s > T`. In that
case the ledger ends empty, and the returned object, the balance, the ledger
and `totalLoss` are those of the same close with size `T`. The function is
total: no error is raised. -/
theorem handleCloseLong_size_conservation (trade : Trade) (st : State)
    (hpos : ∀ p ∈ st.openPositions, 0 < p.size) (hsz : 0 ≤ trade.sz) :
    sumChunks (fun c => c.closingSize) (closeLongRun trade st).chunks =
      min trade.sz (totalOpenSize st.openPositions) ∧
    totalOpenSize (handleCloseLong trade st).2.openPositions =
      totalOpenSize st.openPositions - min trade.sz (totalOpenSize st.openPositions) ∧
    (closeLongRun trade st).remainingSize =
      trade.sz - min trade.sz (totalOpenSize st.openPositions) ∧
    (handleCloseLong trade st).2.console =
      st.console ++
        [LogEvent.closedLong trade.sz trade.px (closeLongRun trade st).totalClosingValue
          (closeLongRun trade st).totalInterest
          (max 0 ((closeLongRun trade st).totalInitialCost -
            (closeLongRun trade st).totalClosingValue))
          (closeLongRun trade st).userGrossProfit
          ((closeLongRun trade st).userGrossProfit - (closeLongRun trade st).totalInterest)] ++
        (if totalOpenSize st.openPositions < trade.sz then
          [LogEvent.overCloseWarning (trade.sz - totalOpenSize st.openPositions)]
        else []) ∧
    (totalOpenSize st.openPositions < trade.sz →
      (handleCloseLong trade st).2.openPositions = [] ∧
      (handleCloseLong trade st).1 =
        (handleCloseLong { trade with sz := totalOpenSize st.openPositions } st).1 ∧
      (handleCloseLong trade st).2.poolBalanceUSDC =
        (handleCloseLong
          { trade with sz := totalOpenSize st.openPositions } st).2.poolBalanceUSDC ∧
      (handleCloseLong trade st).2.openPositions =
        (handleCloseLong
          { trade with sz := totalOpenSize st.openPositions } st).2.openPositions ∧
      (handleCloseLong trade st).2.totalLoss =
        (handleCloseLong { trade with sz := totalOpenSize st.openPositions } st).2.totalLoss) := by
  have hrem := fifoRemaining_eq st.openPositions trade.sz hpos hsz
  refine ⟨?_, ?_, ?_, ?_, ?_⟩
  · rw [closeLongRun_eq]
    exact fifoChunks_size_sum trade.px trade.time st.openPositions trade.sz hpos hsz
  · have hrun : (handleCloseLong trade st).2.openPositions =
        (closeLongRun trade st).openPositions := rfl
    rw [hrun, closeLongRun_eq]
    exact fifoLedger_size_sum st.openPositions trade.sz hpos hsz
  · rw [closeLongRun_eq]
    exact hrem
  · have hremRun : (closeLongRun trade st).remainingSize =
        fifoRemaining st.openPositions trade.sz := by
      rw [closeLongRun_eq]
    simp only [handleCloseLong, hremRun, hrem, gt_iff_lt]
    by_cases hT : totalOpenSize st.openPositions < trade.sz
    · rw [if_pos hT, min_eq_right hT.le, if_pos (by linarith)]
    · rw [if_neg hT, min_eq_left (not_lt.mp hT), if_neg (by simp)]
  · intro hT
    obtain ⟨h1, h2⟩ :=
      fifo_over_close trade.px trade.time st.openPositions trade.sz hpos hT.le
    obtain ⟨h3, h4⟩ :=
      fifo_over_close trade.px trade.time st.openPositions (totalOpenSize st.openPositions)
        hpos le_rfl
    simp only [handleCloseLong, closeLongRun_eq, h1, h2, h3, h4]
    exact ⟨trivial, trivial, trivial, trivial, trivial⟩

/-- Example of size conservation: scenario 4 of the specification. A close of 8 units when
only 5 are open matches 5, leaves the ledger empty and 3 unmatched, and prints
the warning with excess 3. -/
theorem handleCloseLong_size_conservation_witness :
    (∀ p ∈ (handleOpenLong scenario3Open scenarioState).openPositions, 0 < p.size) ∧
    (0 : ℚ) ≤ ({ scenario3Close with sz := 8 } : Trade).sz ∧
    sumChunks (fun c => c.closingSize)
      (closeLongRun { scenario3Close with sz := 8 }
        (handleOpenLong scenario3Open scenarioState)).chunks = 5 ∧
    (closeLongRun { scenario3Close with sz := 8 }
      (handleOpenLong scenario3Open scenarioState)).remainingSize = 3 ∧
    (handleCloseLong { scenario3Close with sz := 8 }
      (handleOpenLong scenario3Open scenarioState)).2.openPositions = [] ∧
    LogEvent.overCloseWarning 3 ∈
      (handleCloseLong { scenario3Close with sz := 8 }
        (handleOpenLong scenario3Open scenarioState)).2.console := by
  have hopen : (handleOpenLong scenario3Open scenarioState).openPositions =
      [⟨5, 200, utc 0⟩] := by
    norm_num [handleOpenLong, scenario3Open, scenarioState, initialState]
  have hpos : ∀ p ∈ (handleOpenLong scenario3Open scenarioState).openPositions,
      0 < p.size := by
    rw [hopen]
    norm_num
  have hsz : (0 : ℚ) ≤ ({ scenario3Close with sz := 8 } : Trade).sz := by norm_num
  have hT : totalOpenSize (handleOpenLong scenario3Open scenarioState).openPositions = 5 := by
    rw [hopen]
    norm_num [totalOpenSize]
  obtain ⟨h1, _, h3, h4, h5⟩ :=
    handleCloseLong_size_conservation { scenario3Close with sz := 8 }
      (handleOpenLong scenario3Open scenarioState) hpos hsz
  rw [hT] at h1 h3 h4 h5
  refine ⟨hpos, hsz, ?_, ?_, ?_, ?_⟩
  · rw [h1]
    norm_num
  · rw [h3]
    norm_num
  · exact (h5 (by norm_num)).1
  · rw [h4]
    norm_num

/-! ## Interest -/

/-- C8 as stated fails: from `berlinOpenTime` to `berlinCloseTime` 90,000,000
milliseconds elapse, that is 25/24 days, which the claim charges as 2 days
(interest `100 * 10 * 0.01 * 2 = 20`); the UTC offset drops by one hour in
between, `diff` returns exactly 1 day, and `calculateInterest` charges 10. -/
theorem calculateInterest_elapsed_counterexample :
    ((berlinCloseTime.valueOf - berlinOpenTime.valueOf : Int) : ℚ) / 86400000 = 25 / 24 ∧
    (100 : ℚ) * 10 * 0.01 *
        (Int.ceil (((berlinCloseTime.valueOf - berlinOpenTime.valueOf : Int) : ℚ) / 86400000) : ℚ)
      = 20 ∧
    diffDays berlinCloseTime berlinOpenTime = 1 ∧
    calculateInterest ⟨10, 100, berlinOpenTime⟩ berlinCloseTime 10 = 10 ∧
    calculateInterest ⟨10, 100, berlinOpenTime⟩ berlinCloseTime 10 ≠
      (100 : ℚ) * 10 * 0.01 *
        (Int.ceil (((berlinCloseTime.valueOf - berlinOpenTime.valueOf : Int) : ℚ) / 86400000) :
          ℚ) := by
  have hc : Int.ceil (((berlinCloseTime.valueOf - berlinOpenTime.valueOf : Int) : ℚ) / 86400000)
      = 2 := by
    rw [Int.ceil_eq_iff]
    norm_num [berlinCloseTime, berlinOpenTime]
  have hd : diffDays berlinCloseTime berlinOpenTime = 1 := by
    norm_num [diffDays, msPerDay, berlinCloseTime, berlinOpenTime]
  have hi : calculateInterest ⟨10, 100, berlinOpenTime⟩ berlinCloseTime 10 = 10 := by
    simp only [calculateInterest, hd]
    norm_num [dailyInterestRate]
  refine ⟨by norm_num [berlinCloseTime, berlinOpenTime], ?_, hd, hi, ?_⟩
  · rw [hc]
    norm_num
  · rw [hi, hc]
    norm_num

/-- C8, amended. Interest rule: `calculateInterest` returns
`openPrice * closedSize * 0.01 * ceil(d)`, where `d` is the time from the
position's `openTime` to the close time as `diff(_, 'days', true)` measures it:
the elapsed milliseconds less `zoneDelta`, divided by 86,400,000, with
`zoneDelta` the UTC offset at `openTime` minus the UTC offset at the close
time, in milliseconds. When the two timestamps have the same UTC offset `d` is
the elapsed milliseconds divided by 86,400,000. Hence a time with
`k - 1 < d ≤ k` is charged exactly `k` days, and the result is linear in
`closedSize`. -/
theorem calculateInterest_rule (position : Position) (closeTime : Moment) (closedSize : ℚ) :
    calculateInterest position closeTime closedSize =
      position.openPrice * closedSize * 0.01 *
        (Int.ceil (((closeTime.valueOf - position.openTime.valueOf -
          (position.openTime.utcOffset - closeTime.utcOffset) * 60000 : Int) : ℚ) / 86400000) :
            ℚ) ∧
    (position.openTime.utcOffset = closeTime.utcOffset →
      calculateInterest position closeTime closedSize =
        position.openPrice * closedSize * 0.01 *
          (Int.ceil (((closeTime.valueOf - position.openTime.valueOf : Int) : ℚ) / 86400000) :
            ℚ)) ∧
    (∀ k : Int, 0 < k →
      (k : ℚ) - 1 < ((closeTime.valueOf - position.openTime.valueOf -
        (position.openTime.utcOffset - closeTime.utcOffset) * 60000 : Int) : ℚ) / 86400000 →
      ((closeTime.valueOf - position.openTime.valueOf -
        (position.openTime.utcOffset - closeTime.utcOffset) * 60000 : Int) : ℚ) / 86400000 ≤
          (k : ℚ) →
      calculateInterest position closeTime closedSize =
        position.openPrice * closedSize * 0.01 * (k : ℚ)) ∧
    (∀ a b x y : ℚ,
      calculateInterest position closeTime (a * x + b * y) =
        a * calculateInterest position closeTime x +
          b * calculateInterest position closeTime y) := by
  refine ⟨rfl, ?_, ?_, ?_⟩
  · intro h
    simp only [calculateInterest, diffDays, msPerDay, dailyInterestRate, h, sub_self, zero_mul,
      sub_zero]
  · intro k _ h1 h2
    have hk : Int.ceil (((closeTime.valueOf - position.openTime.valueOf -
        (position.openTime.utcOffset - closeTime.utcOffset) * 60000 : Int) : ℚ) / 86400000) = k :=
      Int.ceil_eq_iff.mpr ⟨h1, h2⟩
    simp only [calculateInterest, diffDays, msPerDay, dailyInterestRate, hk]
  · intro a b x y
    simp only [calculateInterest]
    ring

/-- Witness for C8: a position of size 10 at price 100 held for one day and one
millisecond at a constant UTC offset is charged two full days,
`100 * 10 * 0.01 * 2 = 20`; across the Berlin change of offset, 25 hours are
one day on the local clock and are charged `100 * 10 * 0.01 * 1 = 10`. -/
theorem calculateInterest_rule_witness :
    calculateInterest ⟨10, 100, utc 0⟩ (utc 86400001) 10 = 20 ∧
    calculateInterest ⟨10, 100, berlinOpenTime⟩ berlinCloseTime 10 = 10 := by
  have h := (calculateInterest_rule ⟨10, 100, utc 0⟩ (utc 86400001) 10).2.2.1 2 (by norm_num)
    (by norm_num) (by norm_num)
  have h' := (calculateInterest_rule ⟨10, 100, berlinOpenTime⟩ berlinCloseTime 10).2.2.1 1
    (by norm_num) (by norm_num [berlinOpenTime, berlinCloseTime])
    (by norm_num [berlinOpenTime, berlinCloseTime])
  rw [h, h']
  norm_num

/-! ## Open/close round trip -/

/-- C9 as stated fails: opening 10 units at 100 at `berlinOpenTime` and closing
them at 110 at `berlinCloseTime`, 25 hours later, the claim's
`I = p * s * 0.01 * ceil(days(t1 - t0))` is 20 and its balance 1,000,020 with
net profit 80; the code charges one day, returns `interestPaid = 10` and net
profit 90, and leaves the balance at 1,000,010. -/
theorem open_close_round_trip_counterexample :
    scenarioState.openPositions = [] ∧
    berlinOpen.px * berlinOpen.sz ≤ scenarioState.poolBalanceUSDC ∧
    berlinOpen.time.valueOf ≤ berlinClose.time.valueOf ∧
    berlinOpen.px * berlinOpen.sz * 0.01 *
        (Int.ceil (((berlinClose.time.valueOf - berlinOpen.time.valueOf : Int) : ℚ) / 86400000) :
          ℚ) = 20 ∧
    (handleCloseLong berlinClose (handleOpenLong berlinOpen scenarioState)).1.interestPaid = 10 ∧
    (handleCloseLong berlinClose (handleOpenLong berlinOpen scenarioState)).1.userNetProfit = 90 ∧
    (handleCloseLong berlinClose (handleOpenLong berlinOpen scenarioState)).2.poolBalanceUSDC =
      1000010 := by
  have hc : Int.ceil (((berlinClose.time.valueOf - berlinOpen.time.valueOf : Int) : ℚ) / 86400000)
      = 2 := by
    rw [Int.ceil_eq_iff]
    norm_num [berlinClose, berlinOpen, berlinCloseTime, berlinOpenTime]
  refine ⟨rfl, by norm_num [berlinOpen, scenarioState, initialState],
    by norm_num [berlinOpen, berlinClose, berlinOpenTime, berlinCloseTime], ?_, ?_, ?_, ?_⟩
  · rw [hc]
    norm_num [berlinOpen]
  all_goals
    norm_num [handleCloseLong, handleOpenLong, closeLongRun, closeLongLoop, closeLongInit,
      closeLongBody, berlinOpen, berlinClose, berlinOpenTime, berlinCloseTime, scenarioState,
      initialState, calculateInterest, diffDays, msPerDay, dailyInterestRate]

/-- C9, amended. Open/close round trip: from a state with an empty ledger and a
balance `B ≥ p * s`, opening a long of size `s > 0` at price `p` and then
closing size `s` at price `q` leaves the ledger empty and the balance equal to
`B - max(0, (p - q) * s) + I`, where `I = p * s * 0.01 * ceil(d)` and `d` is
the day difference `diff` computes: the elapsed milliseconds less `zoneDelta`
(UTC offset at the open minus UTC offset at the close, in milliseconds),
divided by 86,400,000. The close returns `userGrossProfit = max(0, (q - p) * s)`,
`interestPaid = I` and `userNetProfit = userGrossProfit - I`. When open and
close have the same UTC offset, `I = p * s * 0.01 * ceil(ms / 86,400,000)`.
The order of the two times plays no role. -/
theorem open_close_round_trip (st : State) (openTrade closeTrade : Trade)
    (hempty : st.openPositions = [])
    (hbal : openTrade.px * openTrade.sz ≤ st.poolBalanceUSDC)
    (hs : 0 < openTrade.sz) (hsz : closeTrade.sz = openTrade.sz) :
    (handleCloseLong closeTrade (handleOpenLong openTrade st)).2.openPositions = [] ∧
    (handleCloseLong closeTrade (handleOpenLong openTrade st)).2.poolBalanceUSDC =
      st.poolBalanceUSDC - max 0 ((openTrade.px - closeTrade.px) * openTrade.sz) +
        openTrade.px * openTrade.sz * 0.01 *
          (Int.ceil (((closeTrade.time.valueOf - openTrade.time.valueOf -
            (openTrade.time.utcOffset - closeTrade.time.utcOffset) * 60000 : Int) : ℚ) /
              86400000) : ℚ) ∧
    (handleCloseLong closeTrade (handleOpenLong openTrade st)).1.userGrossProfit =
      max 0 ((closeTrade.px - openTrade.px) * openTrade.sz) ∧
    (handleCloseLong closeTrade (handleOpenLong openTrade st)).1.interestPaid =
      openTrade.px * openTrade.sz * 0.01 *
        (Int.ceil (((closeTrade.time.valueOf - openTrade.time.valueOf -
          (openTrade.time.utcOffset - closeTrade.time.utcOffset) * 60000 : Int) : ℚ) /
            86400000) : ℚ) ∧
    (handleCloseLong closeTrade (handleOpenLong openTrade st)).1.userNetProfit =
      max 0 ((closeTrade.px - openTrade.px) * openTrade.sz) -
        openTrade.px * openTrade.sz * 0.01 *
          (Int.ceil (((closeTrade.time.valueOf - openTrade.time.valueOf -
            (openTrade.time.utcOffset - closeTrade.time.utcOffset) * 60000 : Int) : ℚ) /
              86400000) : ℚ) ∧
    (openTrade.time.utcOffset = closeTrade.time.utcOffset →
      (handleCloseLong closeTrade (handleOpenLong openTrade st)).1.interestPaid =
        openTrade.px * openTrade.sz * 0.01 *
          (Int.ceil (((closeTrade.time.valueOf - openTrade.time.valueOf : Int) : ℚ) /
            86400000) : ℚ)) := by
  have hb : (handleOpenLong openTrade st).poolBalanceUSDC =
      st.poolBalanceUSDC - openTrade.px * openTrade.sz := by
    rw [handleOpenLong_of_le openTrade st hbal]
  have hl : (handleOpenLong openTrade st).openPositions =
      st.openPositions ++
        [{ size := openTrade.sz, openPrice := openTrade.px, openTime := openTrade.time }] := by
    rw [handleOpenLong_of_le openTrade st hbal]
  have hI : calculateInterest ⟨openTrade.sz, openTrade.px, openTrade.time⟩ closeTrade.time
      openTrade.sz = openTrade.px * openTrade.sz * 0.01 *
        (Int.ceil (((closeTrade.time.valueOf - openTrade.time.valueOf -
          (openTrade.time.utcOffset - closeTrade.time.utcOffset) * 60000 : Int) : ℚ) /
            86400000) : ℚ) := rfl
  have hmin : min (closeTrade.px * openTrade.sz) (openTrade.sz * openTrade.px) =
      openTrade.px * openTrade.sz - max 0 ((openTrade.px - closeTrade.px) * openTrade.sz) := by
    rcases le_total (closeTrade.px * openTrade.sz) (openTrade.sz * openTrade.px) with h | h
    · rw [min_eq_left h, max_eq_right (by linarith)]
      ring
    · rw [min_eq_right h, max_eq_left (by linarith)]
      ring
  have hmax : max 0 (closeTrade.px * openTrade.sz - openTrade.sz * openTrade.px) =
      max 0 ((closeTrade.px - openTrade.px) * openTrade.sz) := by
    congr 1
    ring
  simp only [handleCloseLong, closeLongRun_eq, hb, hl, hempty, hsz, List.nil_append,
    fifoChunks, fifoLedger, hs, le_refl, if_true, sumChunks_cons, sumChunks_nil, mkChunk, hI,
    hmin, hmax, add_zero]
  refine ⟨trivial, ?_, trivial, trivial, trivial, ?_⟩
  · ring
  · intro h
    simp only [h, sub_self, zero_mul, sub_zero]

/-- Witness for C9: scenarios 1 to 3 of the specification. Opening 10 at 100
from balance 1,000,000 and closing at 110 two days later gives balance
1,000,020, gross 100, net 80; opening 5 at 200 and closing at 150 one day later
credits 760 after the debit of 1,000, with gross 0 and net -10. -/
theorem open_close_round_trip_witness :
    ((handleCloseLong scenario2Close (handleOpenLong scenario1Open scenarioState)).2.poolBalanceUSDC
        = 1000020 ∧
      (handleCloseLong scenario2Close (handleOpenLong scenario1Open scenarioState)).1.userGrossProfit
        = 100 ∧
      (handleCloseLong scenario2Close (handleOpenLong scenario1Open scenarioState)).1.userNetProfit
        = 80) ∧
    ((handleCloseLong scenario3Close (handleOpenLong scenario3Open scenarioState)).2.poolBalanceUSDC
        = scenarioState.poolBalanceUSDC - 1000 + 760 ∧
      (handleCloseLong scenario3Close (handleOpenLong scenario3Open scenarioState)).1.userGrossProfit
        = 0 ∧
      (handleCloseLong scenario3Close (handleOpenLong scenario3Open scenarioState)).1.userNetProfit
        = -10) := by
  obtain ⟨_, a2, a3, _, a5, _⟩ := open_close_round_trip scenarioState scenario1Open
    scenario2Close rfl (by norm_num [scenario1Open, scenarioState, initialState])
    (by norm_num [scenario1Open]) rfl
  obtain ⟨_, b2, b3, _, b5, _⟩ := open_close_round_trip scenarioState scenario3Open
    scenario3Close rfl (by norm_num [scenario3Open, scenarioState, initialState])
    (by norm_num [scenario3Open]) rfl
  rw [a2, a3, a5, b2, b3, b5]
  norm_num [scenario1Open, scenario2Close, scenario3Open, scenario3Close, scenarioState,
    initialState]

/-! ## Positive sizes in the ledger -/

theorem handleOpenLong_pos (trade : Trade) (st : State)
    (hpos : ∀ p ∈ st.openPositions, 0 < p.size) (hsz : 0 < trade.sz) :
    ∀ p ∈ (handleOpenLong trade st).openPositions, 0 < p.size := by
  unfold handleOpenLong
  simp only
  split
  · intro p hp
    simp only [List.mem_append, List.mem_singleton] at hp
    rcases hp with hp | hp
    · exact hpos p hp
    · rw [hp]
      exact hsz
  · exact hpos

theorem handleCloseLong_pos (trade : Trade) (st : State)
    (hpos : ∀ p ∈ st.openPositions, 0 < p.size) :
    ∀ p ∈ (handleCloseLong trade st).2.openPositions, 0 < p.size := by
  have hrun : (handleCloseLong trade st).2.openPositions =
      (closeLongRun trade st).openPositions := rfl
  rw [hrun, closeLongRun_eq]
  exact fifoLedger_pos st.openPositions trade.sz hpos

theorem processTrade_pos (coin : String) (st : State) (trade : Trade)
    (hpos : ∀ p ∈ st.openPositions, 0 < p.size)
    (hopen : trade.coin = coin → includes trade.dir "Open Long" = true → 0 < trade.sz) :
    ∀ p ∈ (processTrade coin st trade).openPositions, 0 < p.size := by
  unfold processTrade
  split
  · rename_i hc
    split
    · rename_i hd
      exact handleOpenLong_pos trade st hpos (hopen hc hd)
    · split
      · exact handleCloseLong_pos trade st hpos
      · exact hpos
  · exact hpos

theorem forEachTrade_pos (coin : String) (trades : List Trade) :
    ∀ st : State, (∀ p ∈ st.openPositions, 0 < p.size) →
      (∀ t ∈ trades, t.coin = coin → includes t.dir "Open Long" = true → 0 < t.sz) →
      ∀ p ∈ (forEachTrade coin trades st).openPositions, 0 < p.size := by
  induction trades with
  | nil => intro st h _; exact h
  | cons t rest ih =>
    intro st h hopen
    exact ih _ (processTrade_pos coin st t h (hopen t (List.mem_cons_self _ _)))
      (fun u hu => hopen u (List.mem_cons_of_mem _ hu))

/-- C10 as stated fails: an Open Long of size 0 at price 100 has non-negative
price and size and cost 0, so `handleOpenLong` accepts it from the initial state
and pushes a position of size 0. -/
theorem positive_size_invariant_counterexample :
    (∀ t ∈ [zeroSizeOpen], 0 ≤ t.px ∧ 0 ≤ t.sz) ∧
    (forEachTrade "ETH" [zeroSizeOpen] initialState).openPositions = [⟨0, 100, utc 0⟩] ∧
    ¬ (∀ p ∈ (forEachTrade "ETH" [zeroSizeOpen] initialState).openPositions, 0 < p.size) := by
  have h1 : includes "Open Long" "Open Long" = true := by decide
  have hl : (forEachTrade "ETH" [zeroSizeOpen] initialState).openPositions = [⟨0, 100, utc 0⟩] := by
    norm_num [forEachTrade, processTrade, h1, handleOpenLong, zeroSizeOpen, initialState]
  refine ⟨by norm_num [zeroSizeOpen], hl, ?_⟩
  rw [hl]
  norm_num

/-- C10, amended. For every sequence of trades with non-negative price and
non-negative size in which every Open Long trade of the target coin has
strictly positive size, processed from the initial state, after every trade
(after any number `n` of trades of the sequence) each position in the ledger
has size strictly greater than zero. -/
theorem positive_size_invariant (coin : String) (trades : List Trade)
    (_hnn : ∀ t ∈ trades, 0 ≤ t.px ∧ 0 ≤ t.sz)
    (hopen : ∀ t ∈ trades, t.coin = coin → includes t.dir "Open Long" = true → 0 < t.sz)
    (n : Nat) :
    ∀ p ∈ (forEachTrade coin (trades.take n) initialState).openPositions, 0 < p.size := by
  apply forEachTrade_pos coin (trades.take n) initialState
  · intro p hp
    simp [initialState] at hp
  · intro t ht
    exact hopen t (List.mem_of_mem_take ht)

/-- Witness for C10: after scenario 3 followed by a close of 2 of its 5 units,
the ledger holds one position of size 3. -/
theorem positive_size_invariant_witness :
    (∀ t ∈ [scenario3Open, { scenario3Close with sz := 2 }], 0 ≤ t.px ∧ 0 ≤ t.sz) ∧
    (forEachTrade "ETH" ([scenario3Open, { scenario3Close with sz := 2 }].take 2)
      initialState).openPositions = [⟨3, 200, utc 0⟩] ∧
    ∀ p ∈ (forEachTrade "ETH" ([scenario3Open, { scenario3Close with sz := 2 }].take 2)
      initialState).openPositions, 0 < p.size := by
  have h1 : includes "Open Long" "Open Long" = true := by decide
  have h2 : includes "Close Long" "Open Long" = false := by decide
  have h3 : includes "Close Long" "Close Long" = true := by decide
  have hnn : ∀ t ∈ [scenario3Open, { scenario3Close with sz := 2 }], 0 ≤ t.px ∧ 0 ≤ t.sz := by
    norm_num [scenario3Open, scenario3Close]
  refine ⟨hnn, ?_, ?_⟩
  · norm_num [forEachTrade, processTrade, h1, h2, h3, handleOpenLong, handleCloseLong,
      closeLongRun, closeLongLoop, closeLongInit, closeLongBody, scenario3Open, scenario3Close,
      initialState]
  · refine positive_size_invariant "ETH" [scenario3Open, { scenario3Close with sz := 2 }] hnn
      ?_ 2
    intro t ht _ _
    simp only [List.mem_cons, List.mem_singleton, List.not_mem_nil, or_false] at ht
    rcases ht with rfl | rfl
    · norm_num [scenario3Open]
    · norm_num

/-! ## Trades that are not dispatched -/

/-- C12. Ledger-neutral trades: when the trade's coin differs from the target
coin, or its direction text contains neither "Open Long" nor "Close Long",
processing the trade returns the state it received: the balance, the ledger,
`totalLoss` and the three user totals are unchanged. -/
theorem processTrade_neutral (coin : String) (st : State) (trade : Trade)
    (h : trade.coin ≠ coin ∨
      (includes trade.dir "Open Long" = false ∧ includes trade.dir "Close Long" = false)) :
    processTrade coin st trade = st ∧
    (processTrade coin st trade).poolBalanceUSDC = st.poolBalanceUSDC ∧
    (processTrade coin st trade).openPositions = st.openPositions ∧
    (processTrade coin st trade).totalLoss = st.totalLoss ∧
    (processTrade coin st trade).totalUserGrossProfit = st.totalUserGrossProfit ∧
    (processTrade coin st trade).totalUserNetProfit = st.totalUserNetProfit ∧
    (processTrade coin st trade).totalInterestPaid = st.totalInterestPaid := by
  have heq : processTrade coin st trade = st := by
    unfold processTrade
    rcases h with h | ⟨h1, h2⟩
    · rw [if_neg h]
    · simp [h1, h2]
  rw [heq]
  exact ⟨rfl, rfl, rfl, rfl, rfl, rfl, rfl⟩

/-- Witness for C12: an Open Short of the target coin, and an Open Long of
another coin, both leave the state of scenario 1 as it is. -/
theorem processTrade_neutral_witness :
    (includes shortOpen.dir "Open Long" = false ∧
      includes shortOpen.dir "Close Long" = false) ∧
    processTrade "ETH" scenarioState shortOpen = scenarioState ∧
    processTrade "BTC" scenarioState scenario1Open = scenarioState :=
  ⟨⟨by decide, by decide⟩,
    (processTrade_neutral "ETH" scenarioState shortOpen
      (Or.inr ⟨by decide, by decide⟩)).1,
    (processTrade_neutral "BTC" scenarioState scenario1Open (Or.inl (by decide))).1⟩

/-! ## Termination of the matching loop -/

theorem fifoChunks_length_le (px : ℚ) (time : Moment) (ledger : List Position) :
    ∀ r : ℚ, (fifoChunks px time ledger r).length ≤ ledger.length := by
  induction ledger with
  | nil => intro r; simp [fifoChunks]
  | cons p rest ih =>
    intro r
    by_cases hr : 0 < r
    · by_cases hle : p.size ≤ r
      · simp only [fifoChunks, hr, hle, if_true, List.length_cons]
        exact Nat.succ_le_succ (ih _)
      · simp [fifoChunks, hr, hle]
    · simp [fifoChunks, hr]

/-- C16. Termination of matching: for a ledger of `n` positions of any sizes,
the loop of `handleCloseLong` ends within `n` iterations. Run for at most `n`
iterations it reaches a state in which the loop condition is false, and
allowing more iterations changes nothing; the number of iterations
(`positionsClosed`) equals the number of chunks and is at most `n`. The reason
is that an iteration entered with `remainingSize > 0` either brings
`remainingSize` to zero or removes the head position. -/
theorem closeLong_terminates (trade : Trade) (st : State) :
    (closeLongRun trade st).positionsClosed ≤ st.openPositions.length ∧
    (closeLongRun trade st).chunks.length ≤ st.openPositions.length ∧
    (closeLongRun trade st).positionsClosed = (closeLongRun trade st).chunks.length ∧
    closeLongRun trade st =
      closeLongLoop trade st.openPositions.length (closeLongInit trade st) ∧
    ¬ ((closeLongRun trade st).remainingSize > 0 ∧
        (closeLongRun trade st).openPositions.length > 0) ∧
    (∀ fuel : Nat, st.openPositions.length ≤ fuel →
      closeLongLoop trade fuel (closeLongInit trade st) = closeLongRun trade st) ∧
    (∀ (σ : CloseLoopState) (p : Position) (rest : List Position),
      (closeLongBody trade σ p rest).remainingSize = 0 ∨
        (closeLongBody trade σ p rest).openPositions = rest) := by
  refine ⟨?_, ?_, ?_, rfl, closeLongRun_exit trade st,
    fun fuel h => closeLongLoop_fuel_irrelevant trade st fuel h, ?_⟩
  · rw [closeLongRun_eq]
    exact fifoChunks_length_le _ _ _ _
  · rw [closeLongRun_eq]
    exact fifoChunks_length_le _ _ _ _
  · rw [closeLongRun_eq]
  · intro σ p rest
    rcases le_total σ.remainingSize p.size with h | h
    · left
      simp [closeLongBody, min_eq_left h]
    · right
      simp [closeLongBody, min_eq_right h]

/-! ## Two runs one after the other -/

theorem sameVars_refl (st : State) : sameVars st st :=
  ⟨rfl, rfl, rfl, rfl, rfl, rfl⟩

theorem closeLongRun_congr (trade : Trade) (st st' : State)
    (hb : st.poolBalanceUSDC = st'.poolBalanceUSDC)
    (hl : st.openPositions = st'.openPositions) :
    closeLongRun trade st = closeLongRun trade st' := by
  simp only [closeLongRun, closeLongInit, hb, hl]

theorem processTrade_sameVars (coin : String) (st st' : State) (trade : Trade)
    (h : sameVars st st') :
    sameVars (processTrade coin st trade) (processTrade coin st' trade) := by
  obtain ⟨hb, hloss, hl, hg, hn, hi⟩ := h
  have hrun := closeLongRun_congr trade st st' hb hl
  unfold processTrade
  split
  · split
    · unfold handleOpenLong
      simp only [hb, hl]
      split
      · exact ⟨rfl, hloss, rfl, hg, hn, hi⟩
      · exact ⟨rfl, hloss, rfl, hg, hn, hi⟩
    · split
      · simp only [handleCloseLong, hrun, hloss, hg, hn, hi]
        exact ⟨rfl, rfl, rfl, rfl, rfl, rfl⟩
      · exact ⟨hb, hloss, hl, hg, hn, hi⟩
  · exact ⟨hb, hloss, hl, hg, hn, hi⟩

theorem forEachTrade_sameVars (coin : String) (trades : List Trade) :
    ∀ st st' : State, sameVars st st' →
      sameVars (forEachTrade coin trades st) (forEachTrade coin trades st') := by
  induction trades with
  | nil => intro st st' h; exact h
  | cons t rest ih =>
    intro st st' h
    exact ih _ _ (processTrade_sameVars coin st st' t h)

theorem report_sameVars (st st' : State) (h : sameVars st st') : report st = report st' := by
  obtain ⟨hb, hloss, _, hg, hn, hi⟩ := h
  simp only [report, hb, hloss, hg, hn, hi]

theorem forEachTrade_append (coin : String) (xs ys : List Trade) (st : State) :
    forEachTrade coin (xs ++ ys) st = forEachTrade coin ys (forEachTrade coin xs st) := by
  simp [forEachTrade, List.foldl_append]

/-- C11 as stated fails: replaying scenario 1 (Open Long 10 units at 100) twice
from the initial state, the first run reports a final balance of 99,999,000 and
the second run, which starts from the balance and ledger the first one left,
reports 99,998,000. -/
theorem two_runs_counterexample :
    (printedReport [scenario1Open] "ETH" initialState).finalBalance = 99999000 ∧
    (printedReport [scenario1Open] "ETH"
      (processTrades [scenario1Open] "ETH" initialState)).finalBalance = 99998000 ∧
    printedReport [scenario1Open] "ETH" (processTrades [scenario1Open] "ETH" initialState) ≠
      printedReport [scenario1Open] "ETH" initialState := by
  have h1 : includes "Open Long" "Open Long" = true := by decide
  have ha : (printedReport [scenario1Open] "ETH" initialState).finalBalance = 99999000 := by
    norm_num [printedReport, report, processTrades, forEachTrade, processTrade, h1,
      handleOpenLong, scenario1Open, initialState]
  have hb : (printedReport [scenario1Open] "ETH"
      (processTrades [scenario1Open] "ETH" initialState)).finalBalance = 99998000 := by
    norm_num [printedReport, report, processTrades, forEachTrade, processTrade, h1,
      handleOpenLong, scenario1Open, initialState]
  refine ⟨ha, hb, ?_⟩
  intro h
  rw [h, ha] at hb
  norm_num at hb

/-- C11, amended. The module variables are never reset, so when `processTrades`
is run twice, one run after the other, on an identical trade sequence and
identical target coin, the second run continues from the variables the first
run left: the report of the second run is the report of a single run over the
sequence followed by itself. The report depends on the starting state only
through the six module variables: two runs that start from equal values of
these variables print identical reports. -/
theorem two_runs_report (trades : List Trade) (coin : String) (st st' : State)
    (h : sameVars st st') :
    printedReport trades coin (processTrades trades coin st) =
      printedReport (trades ++ trades) coin st ∧
    printedReport trades coin st = printedReport trades coin st' ∧
    (processTrades trades coin st).console =
      (forEachTrade coin trades st).console ++
        [LogEvent.summary coin (printedReport trades coin st)] := by
  refine ⟨?_, ?_, rfl⟩
  · unfold printedReport
    rw [forEachTrade_append]
    apply report_sameVars
    apply forEachTrade_sameVars
    exact ⟨rfl, rfl, rfl, rfl, rfl, rfl⟩
  · unfold printedReport
    exact report_sameVars _ _ (forEachTrade_sameVars coin trades st st' h)

/-- Witness for C11: scenario 1 run twice from the initial state; the second
report is the one of the two opens in a row, with final balance 99,998,000. A
run from a state that differs from the initial one only in its console prints
the report of a run from the initial state. -/
theorem two_runs_report_witness :
    sameVars initialState { initialState with console := [LogEvent.insufficientUSDC] } ∧
    printedReport [scenario1Open] "ETH" (processTrades [scenario1Open] "ETH" initialState) =
      printedReport ([scenario1Open] ++ [scenario1Open]) "ETH" initialState ∧
    (printedReport ([scenario1Open] ++ [scenario1Open]) "ETH" initialState).finalBalance =
      99998000 ∧
    printedReport [scenario1Open] "ETH" initialState =
      printedReport [scenario1Open] "ETH"
        { initialState with console := [LogEvent.insufficientUSDC] } := by
  have h1 : includes "Open Long" "Open Long" = true := by decide
  have hv : sameVars initialState
      { initialState with console := [LogEvent.insufficientUSDC] } :=
    ⟨rfl, rfl, rfl, rfl, rfl, rfl⟩
  refine ⟨hv, (two_runs_report [scenario1Open] "ETH" initialState _ hv).1, ?_,
    (two_runs_report [scenario1Open] "ETH" initialState _ hv).2.1⟩
  norm_num [printedReport, report, forEachTrade, processTrade, h1, handleOpenLong,
    scenario1Open, initialState]

/-! ## Book value -/

theorem ledgerValue_nil : ledgerValue [] = 0 := by
  simp [ledgerValue]

theorem ledgerValue_cons (p : Position) (rest : List Position) :
    ledgerValue (p :: rest) = p.openPrice * p.size + ledgerValue rest := by
  simp [ledgerValue]

theorem ledgerValue_append (xs ys : List Position) :
    ledgerValue (xs ++ ys) = ledgerValue xs + ledgerValue ys := by
  simp [ledgerValue]

theorem sumChunks_sub (f g : Chunk → ℚ) (cs : List Chunk) :
    sumChunks (fun c => f c - g c) cs = sumChunks f cs - sumChunks g cs := by
  induction cs with
  | nil => simp [sumChunks_nil]
  | cons c rest ih =>
    simp only [sumChunks_cons, ih]
    ring

/-- What a chunk returns to the pool is its initial cost less its loss. -/
theorem min_eq_sub_loss (cv ic : ℚ) : min cv ic = ic - max 0 (ic - cv) := by
  rcases le_total cv ic with h | h
  · rw [min_eq_left h, max_eq_right (by linarith)]
    ring
  · rw [min_eq_right h, max_eq_left (by linarith)]
    ring

/-- A close moves value between the balance and the ledger: what is credited
plus what stays open is what was open plus interest less the chunk losses. -/
theorem fifo_bookValue (px : ℚ) (time : Moment) (ledger : List Position) :
    ∀ r : ℚ,
      sumChunks (fun c => c.toPool + c.interest) (fifoChunks px time ledger r) +
          ledgerValue (fifoLedger ledger r) =
        ledgerValue ledger +
          sumChunks (fun c => c.interest - chunkLoss c) (fifoChunks px time ledger r) := by
  induction ledger with
  | nil => intro r; simp [fifoChunks, fifoLedger, sumChunks_nil]
  | cons p rest ih =>
    intro r
    by_cases hr : 0 < r
    · by_cases hle : p.size ≤ r
      · have h := ih (r - p.size)
        have hm := min_eq_sub_loss (px * p.size) (p.size * p.openPrice)
        simp only [fifoChunks, fifoLedger, hr, hle, if_true, sumChunks_cons, ledgerValue_cons]
        simp only [mkChunk, chunkLoss] at h ⊢
        linarith
      · have hm := min_eq_sub_loss (px * r) (r * p.openPrice)
        simp only [fifoChunks, fifoLedger, hr, hle, if_true, if_false, sumChunks_cons,
          sumChunks_nil, ledgerValue_cons, mkChunk, chunkLoss]
        linarith
    · simp only [fifoChunks, fifoLedger, hr, if_false, sumChunks_nil]
      ring

theorem handleOpenLong_bookValue (trade : Trade) (st : State) :
    bookValue (handleOpenLong trade st) = bookValue st := by
  unfold handleOpenLong bookValue
  simp only
  split
  · simp only [ledgerValue_append, ledgerValue_cons, ledgerValue_nil]
    ring
  · rfl

theorem handleCloseLong_bookValue (trade : Trade) (st : State) :
    bookValue (handleCloseLong trade st).2 =
      bookValue st +
        sumChunks (fun c => c.interest - chunkLoss c) (closeLongRun trade st).chunks := by
  have h : bookValue (handleCloseLong trade st).2 =
      (closeLongRun trade st).poolBalanceUSDC +
        ledgerValue (closeLongRun trade st).openPositions := rfl
  rw [h, closeLongRun_eq]
  simp only [bookValue]
  have := fifo_bookValue trade.px trade.time st.openPositions trade.sz
  linarith

theorem processTrade_bookValue (coin : String) (st : State) (trade : Trade) :
    bookValue (processTrade coin st trade) =
      bookValue st +
        ((processTrade coin st trade).totalInterestPaid - st.totalInterestPaid) -
          tradeChunkLoss coin st trade := by
  unfold processTrade tradeChunkLoss
  split
  · split
    · rw [handleOpenLong_bookValue, (handleOpenLong_totals trade st).2.2.2]
      ring
    · split
      · have h := handleCloseLong_bookValue trade st
        have hi : (handleCloseLong trade st).1.interestPaid =
            sumChunks (fun c => c.interest) (closeLongRun trade st).chunks := by
          have h0 : (handleCloseLong trade st).1.interestPaid =
              (closeLongRun trade st).totalInterest := rfl
          rw [h0, closeLongRun_eq]
        have ht : (handleCloseLong trade st).2.totalInterestPaid = st.totalInterestPaid := rfl
        rw [sumChunks_sub] at h
        simp only [bookValue] at h ⊢
        rw [ht, hi]
        linarith
      · ring
  · ring

theorem forEachTrade_bookValue (coin : String) (trades : List Trade) :
    ∀ st : State,
      bookValue (forEachTrade coin trades st) =
        bookValue st +
          ((forEachTrade coin trades st).totalInterestPaid - st.totalInterestPaid) -
            runChunkLoss coin trades st := by
  induction trades with
  | nil =>
    intro st
    simp [forEachTrade, runChunkLoss]
  | cons t rest ih =>
    intro st
    have h1 := ih (processTrade coin st t)
    have h2 := processTrade_bookValue coin st t
    have h3 : forEachTrade coin (t :: rest) st = forEachTrade coin rest (processTrade coin st t) :=
      rfl
    rw [h3]
    simp only [runChunkLoss]
    linarith

/-- C13. Book-value conservation, with `V = balance + Σ openPrice * size` over
the open positions. Every Open Long, accepted or rejected, leaves `V`
unchanged; every Close Long changes `V` by the sum over its chunks of
`interest - max(0, initialCost - closingValue)`. Over a replay, `V` changes by
the interest collected less the sum of the per-chunk losses; so a replay from
the initial state that ends with an empty ledger reports
`finalBalance - initialBalance = total interest - sum of per-chunk losses`. -/
theorem book_value_conservation (trade : Trade) (st : State) (coin : String)
    (trades : List Trade) :
    bookValue (handleOpenLong trade st) = bookValue st ∧
    bookValue (handleCloseLong trade st).2 =
      bookValue st +
        sumChunks (fun c => c.interest - max 0 (c.initialCost - c.closingValue))
          (closeLongRun trade st).chunks ∧
    bookValue (forEachTrade coin trades st) =
      bookValue st +
        ((forEachTrade coin trades st).totalInterestPaid - st.totalInterestPaid) -
          runChunkLoss coin trades st ∧
    ((forEachTrade coin trades initialState).openPositions = [] →
      (printedReport trades coin initialState).finalBalance -
          (printedReport trades coin initialState).initialBalance =
        (printedReport trades coin initialState).totalInterestEarned -
          runChunkLoss coin trades initialState) := by
  refine ⟨handleOpenLong_bookValue trade st, handleCloseLong_bookValue trade st,
    forEachTrade_bookValue coin trades st, ?_⟩
  intro hempty
  have h := forEachTrade_bookValue coin trades initialState
  simp only [bookValue, hempty, ledgerValue_nil] at h
  simp only [printedReport, report]
  simp only [initialState, ledgerValue_nil] at h ⊢
  linarith

/-- Witness for C13: the replay of `mixedTrades` ends with an empty ledger; its
per-chunk losses sum to 50, no interest accrues, and the reported final balance
is 50 below the initial balance. -/
theorem book_value_conservation_witness :
    (forEachTrade "ETH" mixedTrades initialState).openPositions = [] ∧
    runChunkLoss "ETH" mixedTrades initialState = 50 ∧
    (printedReport mixedTrades "ETH" initialState).totalInterestEarned = 0 ∧
    (printedReport mixedTrades "ETH" initialState).finalBalance -
        (printedReport mixedTrades "ETH" initialState).initialBalance =
      (printedReport mixedTrades "ETH" initialState).totalInterestEarned -
        runChunkLoss "ETH" mixedTrades initialState := by
  have h1 : includes "Open Long" "Open Long" = true := by decide
  have h2 : includes "Close Long" "Open Long" = false := by decide
  have h3 : includes "Close Long" "Close Long" = true := by decide
  have hempty : (forEachTrade "ETH" mixedTrades initialState).openPositions = [] := by
    norm_num [forEachTrade, processTrade, h1, h2, h3, handleOpenLong, handleCloseLong,
      closeLongRun, closeLongLoop, closeLongInit, closeLongBody, mixedTrades, mixedClose,
      initialState]
  refine ⟨hempty, ?_, ?_,
    (book_value_conservation mixedClose initialState "ETH" mixedTrades).2.2.2 hempty⟩
  · norm_num [runChunkLoss, tradeChunkLoss, sumChunks, chunkLoss, forEachTrade, processTrade,
      h1, h2, h3, handleOpenLong, handleCloseLong, closeLongRun, closeLongLoop, closeLongInit,
      closeLongBody, mixedTrades, mixedClose, initialState, calculateInterest, diffDays]
  · norm_num [printedReport, report, forEachTrade, processTrade, h1, h2, h3, handleOpenLong,
      handleCloseLong, closeLongRun, closeLongLoop, closeLongInit, closeLongBody, mixedTrades,
      mixedClose, initialState, calculateInterest, diffDays]

/-! ## Pool solvency -/

theorem sumChunks_nonneg (f : Chunk → ℚ) (cs : List Chunk) (h : ∀ c ∈ cs, 0 ≤ f c) :
    0 ≤ sumChunks f cs := by
  induction cs with
  | nil => simp [sumChunks_nil]
  | cons c rest ih =>
    rw [sumChunks_cons]
    have h1 := h c (List.mem_cons_self _ _)
    have h2 := ih (fun d hd => h d (List.mem_cons_of_mem _ hd))
    linarith

theorem diffDays_gt_neg_one (closeTime openTime : Moment)
    (hv : openTime.valueOf ≤ closeTime.valueOf)
    (ho : openTime.utcOffset - closeTime.utcOffset < 1440) :
    -1 < diffDays closeTime openTime := by
  have hint : (-86400000 : Int) <
      closeTime.valueOf - openTime.valueOf -
        (openTime.utcOffset - closeTime.utcOffset) * 60000 := by
    omega
  have hq : ((-86400000 : Int) : ℚ) <
      ((closeTime.valueOf - openTime.valueOf -
        (openTime.utcOffset - closeTime.utcOffset) * 60000 : Int) : ℚ) :=
    Int.cast_lt.mpr hint
  unfold diffDays msPerDay
  simp only
  rw [lt_div_iff₀ (by norm_num)]
  calc (-1 : ℚ) * 86400000 = ((-86400000 : Int) : ℚ) := by norm_num
    _ < _ := hq

theorem calculateInterest_nonneg (p : Position) (time : Moment) (cs : ℚ)
    (hop : 0 ≤ p.openPrice) (hd : -1 < diffDays time p.openTime) (hcs : 0 ≤ cs) :
    0 ≤ calculateInterest p time cs := by
  have hlt : (-1 : Int) < Int.ceil (diffDays time p.openTime) := by
    rw [Int.lt_ceil]
    exact_mod_cast hd
  have hc : (0 : ℚ) ≤ ((Int.ceil (diffDays time p.openTime) : Int) : ℚ) :=
    Int.cast_nonneg.mpr (by omega)
  have hrate : (0 : ℚ) ≤ dailyInterestRate := by
    unfold dailyInterestRate
    norm_num
  unfold calculateInterest
  exact mul_nonneg (mul_nonneg (mul_nonneg hop hcs) hrate) hc

theorem mkChunk_credit_nonneg (px : ℚ) (time : Moment) (p : Position) (cs : ℚ)
    (hpx : 0 ≤ px) (hop : 0 ≤ p.openPrice) (hd : -1 < diffDays time p.openTime)
    (hcs : 0 ≤ cs) :
    0 ≤ (mkChunk px time p cs).toPool + (mkChunk px time p cs).interest := by
  have h1 : 0 ≤ (mkChunk px time p cs).toPool :=
    le_min (mul_nonneg hpx hcs) (mul_nonneg hcs hop)
  have h2 : 0 ≤ (mkChunk px time p cs).interest := calculateInterest_nonneg p time cs hop hd hcs
  linarith

theorem fifoChunks_credit_nonneg (px : ℚ) (time : Moment) (hpx : 0 ≤ px)
    (ledger : List Position) :
    ∀ r : ℚ, (∀ p ∈ ledger, 0 ≤ p.size ∧ 0 ≤ p.openPrice ∧ -1 < diffDays time p.openTime) →
      ∀ c ∈ fifoChunks px time ledger r, 0 ≤ c.toPool + c.interest := by
  induction ledger with
  | nil => intro r _ c hc; simp [fifoChunks] at hc
  | cons p rest ih =>
    intro r h c hc
    obtain ⟨hs, hop, ht⟩ := h p (List.mem_cons_self _ _)
    by_cases hr : 0 < r
    · by_cases hle : p.size ≤ r
      · simp only [fifoChunks, hr, hle, if_true, List.mem_cons] at hc
        rcases hc with hc | hc
        · rw [hc]
          exact mkChunk_credit_nonneg px time p p.size hpx hop ht hs
        · exact ih _ (fun q hq => h q (List.mem_cons_of_mem _ hq)) c hc
      · simp only [fifoChunks, hr, hle, if_true, if_false, List.mem_singleton] at hc
        rw [hc]
        exact mkChunk_credit_nonneg px time p r hpx hop ht hr.le
    · simp [fifoChunks, hr] at hc

theorem fifoLedger_bounds (Q : Moment → Prop) (ledger : List Position) :
    ∀ r : ℚ, (∀ p ∈ ledger, 0 ≤ p.size ∧ 0 ≤ p.openPrice ∧ Q p.openTime) →
      ∀ p ∈ fifoLedger ledger r, 0 ≤ p.size ∧ 0 ≤ p.openPrice ∧ Q p.openTime := by
  induction ledger with
  | nil => intro r _ p hp; simp [fifoLedger] at hp
  | cons q rest ih =>
    intro r h p hp
    obtain ⟨_, hop, ht⟩ := h q (List.mem_cons_self _ _)
    have hrest := fun u hu => h u (List.mem_cons_of_mem q hu)
    by_cases hr : 0 < r
    · by_cases hle : q.size ≤ r
      · simp only [fifoLedger, hr, hle, if_true] at hp
        exact ih _ hrest p hp
      · simp only [fifoLedger, hr, hle, if_true, if_false, List.mem_cons] at hp
        rcases hp with hp | hp
        · rw [hp]
          exact ⟨by simp only; linarith [not_le.mp hle], hop, ht⟩
        · exact hrest p hp
    · simp only [fifoLedger, hr, if_false] at hp
      exact h p hp

theorem processTrade_solvent (coin : String) (st : State) (trade : Trade) (Q : Moment → Prop)
    (hbal : 0 ≤ st.poolBalanceUSDC)
    (hled : ∀ p ∈ st.openPositions, 0 ≤ p.size ∧ 0 ≤ p.openPrice ∧ Q p.openTime)
    (hdays : ∀ p ∈ st.openPositions, -1 < diffDays trade.time p.openTime)
    (hQ : Q trade.time) (hpx : 0 ≤ trade.px) (hsz : 0 ≤ trade.sz) :
    0 ≤ (processTrade coin st trade).poolBalanceUSDC ∧
    ∀ p ∈ (processTrade coin st trade).openPositions,
      0 ≤ p.size ∧ 0 ≤ p.openPrice ∧ Q p.openTime := by
  unfold processTrade
  split
  · split
    · unfold handleOpenLong
      simp only
      split
      · rename_i hcost
        refine ⟨sub_nonneg.mpr hcost, ?_⟩
        intro p hp
        simp only [List.mem_append, List.mem_singleton] at hp
        rcases hp with hp | hp
        · exact hled p hp
        · rw [hp]
          exact ⟨hsz, hpx, hQ⟩
      · exact ⟨hbal, hled⟩
    · split
      · have hb : (handleCloseLong trade st).2.poolBalanceUSDC =
            (closeLongRun trade st).poolBalanceUSDC := rfl
        have hl : (handleCloseLong trade st).2.openPositions =
            (closeLongRun trade st).openPositions := rfl
        simp only [hb, hl, closeLongRun_eq]
        refine ⟨?_, fifoLedger_bounds Q st.openPositions trade.sz hled⟩
        have := sumChunks_nonneg (fun c => c.toPool + c.interest) _
          (fifoChunks_credit_nonneg trade.px trade.time hpx st.openPositions trade.sz
            (fun p hp => ⟨(hled p hp).1, (hled p hp).2.1, hdays p hp⟩))
        linarith
      · exact ⟨hbal, hled⟩
  · exact ⟨hbal, hled⟩

theorem forEachTrade_solvent (coin : String) (trades : List Trade) :
    ∀ st : State, 0 ≤ st.poolBalanceUSDC →
      (∀ p ∈ st.openPositions,
        0 ≤ p.size ∧ 0 ≤ p.openPrice ∧
          ∀ t ∈ trades, p.openTime.valueOf ≤ t.time.valueOf ∧
            p.openTime.utcOffset - t.time.utcOffset < 1440) →
      trades.Pairwise (fun a b => a.time.valueOf ≤ b.time.valueOf ∧
        a.time.utcOffset - b.time.utcOffset < 1440) →
      (∀ t ∈ trades, 0 ≤ t.px ∧ 0 ≤ t.sz) →
      0 ≤ (forEachTrade coin trades st).poolBalanceUSDC := by
  induction trades with
  | nil => intro st h _ _ _; exact h
  | cons t rest ih =>
    intro st hbal hled hsorted hnn
    obtain ⟨hhead, htail⟩ := List.pairwise_cons.mp hsorted
    obtain ⟨hpx, hsz⟩ := hnn t (List.mem_cons_self _ _)
    obtain ⟨hb, hl⟩ := processTrade_solvent coin st t
      (fun m => ∀ u ∈ rest, m.valueOf ≤ u.time.valueOf ∧ m.utcOffset - u.time.utcOffset < 1440)
      hbal
      (fun p hp => ⟨(hled p hp).1, (hled p hp).2.1,
        fun u hu => (hled p hp).2.2 u (List.mem_cons_of_mem _ hu)⟩)
      (fun p hp => diffDays_gt_neg_one t.time p.openTime
        ((hled p hp).2.2 t (List.mem_cons_self _ _)).1
        ((hled p hp).2.2 t (List.mem_cons_self _ _)).2)
      hhead hpx hsz
    exact ih _ hb hl htail (fun u hu => hnn u (List.mem_cons_of_mem _ hu))

/-- C14. Pool solvency: for every trade sequence in non-decreasing time order
with non-negative prices and sizes, replayed from the initial state (balance
100,000,000, empty ledger), the pool balance is non-negative after every trade
(after any number `n` of trades of the sequence). The timestamps are ordered
by their instants; their UTC offsets may change along the sequence by less
than a day (1440 minutes), which covers every daylight-saving change and is
trivially so when all timestamps have the same offset. -/
theorem pool_solvency (coin : String) (trades : List Trade)
    (hsorted : trades.Pairwise (fun a b => a.time.valueOf ≤ b.time.valueOf))
    (hoffset : ∀ a ∈ trades, ∀ b ∈ trades, a.time.utcOffset - b.time.utcOffset < 1440)
    (hnn : ∀ t ∈ trades, 0 ≤ t.px ∧ 0 ≤ t.sz) (n : Nat) :
    initialState.poolBalanceUSDC = 100000000 ∧ initialState.openPositions = [] ∧
    0 ≤ (forEachTrade coin (trades.take n) initialState).poolBalanceUSDC := by
  refine ⟨rfl, rfl, ?_⟩
  apply forEachTrade_solvent coin (trades.take n) initialState
  · norm_num [initialState]
  · intro p hp
    simp [initialState] at hp
  · exact (hsorted.imp_of_mem (fun ha hb h => ⟨h, hoffset _ ha _ hb⟩)).take
  · intro t ht
    exact hnn t (List.mem_of_mem_take ht)

/-- Witness for C14: after scenario 3 (open 5 at 200, close at 150 one day
later) from the initial state, the balance is 99,999,760; and after the open
and close either side of the Berlin change of offset it is 100,000,010. -/
theorem pool_solvency_witness :
    [scenario3Open, scenario3Close].Pairwise (fun a b => a.time.valueOf ≤ b.time.valueOf) ∧
    (∀ a ∈ [scenario3Open, scenario3Close], ∀ b ∈ [scenario3Open, scenario3Close],
      a.time.utcOffset - b.time.utcOffset < 1440) ∧
    (∀ t ∈ [scenario3Open, scenario3Close], 0 ≤ t.px ∧ 0 ≤ t.sz) ∧
    (forEachTrade "ETH" ([scenario3Open, scenario3Close].take 2)
      initialState).poolBalanceUSDC = 99999760 ∧
    0 ≤ (forEachTrade "ETH" ([scenario3Open, scenario3Close].take 2)
      initialState).poolBalanceUSDC ∧
    0 ≤ (forEachTrade "ETH" ([berlinOpen, berlinClose].take 2) initialState).poolBalanceUSDC := by
  have h1 : includes "Open Long" "Open Long" = true := by decide
  have h2 : includes "Close Long" "Open Long" = false := by decide
  have h3 : includes "Close Long" "Close Long" = true := by decide
  have hs : [scenario3Open, scenario3Close].Pairwise
      (fun a b => a.time.valueOf ≤ b.time.valueOf) := by
    norm_num [scenario3Open, scenario3Close]
  have ho : ∀ a ∈ [scenario3Open, scenario3Close], ∀ b ∈ [scenario3Open, scenario3Close],
      a.time.utcOffset - b.time.utcOffset < 1440 := by
    norm_num [scenario3Open, scenario3Close]
  have hnn : ∀ t ∈ [scenario3Open, scenario3Close], 0 ≤ t.px ∧ 0 ≤ t.sz := by
    norm_num [scenario3Open, scenario3Close]
  refine ⟨hs, ho, hnn, ?_,
    (pool_solvency "ETH" [scenario3Open, scenario3Close] hs ho hnn 2).2.2,
    (pool_solvency "ETH" [berlinOpen, berlinClose]
      (by norm_num [berlinOpen, berlinClose, berlinOpenTime, berlinCloseTime])
      (by norm_num [berlinOpen, berlinClose, berlinOpenTime, berlinCloseTime])
      (by norm_num [berlinOpen, berlinClose]) 2).2.2⟩
  norm_num [forEachTrade, processTrade, h1, h2, h3, handleOpenLong, handleCloseLong,
    closeLongRun, closeLongLoop, closeLongInit, closeLongBody, scenario3Open, scenario3Close,
    initialState, calculateInterest, diffDays, msPerDay, dailyInterestRate]

/-! ## Splitting a close -/

/-- Closing `a` and then `b` leaves the ledger that closing `a + b` leaves. -/
theorem fifoLedger_split (b : ℚ) (hb : 0 ≤ b) (ledger : List Position) :
    ∀ a : ℚ, (∀ p ∈ ledger, 0 < p.size) → 0 ≤ a →
      fifoLedger (fifoLedger ledger a) b = fifoLedger ledger (a + b) := by
  induction ledger with
  | nil => intro a _ _; rfl
  | cons p rest ih =>
    intro a hpos ha
    have hrest : ∀ q ∈ rest, 0 < q.size := fun q hq => hpos q (List.mem_cons_of_mem _ hq)
    by_cases ha0 : 0 < a
    · have hab : 0 < a + b := by linarith
      by_cases hle : p.size ≤ a
      · have hle2 : p.size ≤ a + b := by linarith
        have e : a + b - p.size = a - p.size + b := by ring
        simp only [fifoLedger, ha0, hle, hab, hle2, if_true]
        rw [e]
        exact ih _ hrest (by linarith)
      · have hlt : a < p.size := not_le.mp hle
        simp only [fifoLedger, ha0, hle, if_true, if_false]
        by_cases hb0 : 0 < b
        · by_cases hle2 : p.size - a ≤ b
          · have hle3 : p.size ≤ a + b := by linarith
            have e : a + b - p.size = b - (p.size - a) := by ring
            simp only [fifoLedger, hb0, hle2, hab, hle3, if_true]
            rw [e]
          · have hle3 : ¬ p.size ≤ a + b := by
              intro h
              exact hle2 (by linarith)
            have e : p.size - (a + b) = p.size - a - b := by ring
            simp only [fifoLedger, hb0, hle2, hab, hle3, if_true, if_false]
            rw [e]
        · have hb' : b = 0 := le_antisymm (not_lt.mp hb0) hb
          subst hb'
          simp only [fifoLedger, lt_irrefl, if_false, add_zero, ha0, hle, if_true]
    · have ha' : a = 0 := le_antisymm (not_lt.mp ha0) ha
      subst ha'
      simp only [fifoLedger, lt_irrefl, if_false, zero_add]

/-- For a chunk quantity `F` that is additive in the closing size and does not
read the position's size, the chunks of closing `a` and then `b` add up to the
chunks of closing `a + b`. -/
theorem fifoChunks_split_sum (px : ℚ) (time : Moment) (F : Chunk → ℚ)
    (hadd : ∀ (p : Position) (x y : ℚ), 0 ≤ x → 0 ≤ y →
      F (mkChunk px time p (x + y)) = F (mkChunk px time p x) + F (mkChunk px time p y))
    (hsize : ∀ (p : Position) (s x : ℚ),
      F (mkChunk px time { p with size := s } x) = F (mkChunk px time p x))
    (b : ℚ) (hb : 0 ≤ b) (ledger : List Position) :
    ∀ a : ℚ, (∀ p ∈ ledger, 0 < p.size) → 0 ≤ a →
      sumChunks F (fifoChunks px time ledger a) +
          sumChunks F (fifoChunks px time (fifoLedger ledger a) b) =
        sumChunks F (fifoChunks px time ledger (a + b)) := by
  induction ledger with
  | nil => intro a _ _; simp [fifoChunks, fifoLedger, sumChunks_nil]
  | cons p rest ih =>
    intro a hpos ha
    have hp : 0 < p.size := hpos p (List.mem_cons_self _ _)
    have hrest : ∀ q ∈ rest, 0 < q.size := fun q hq => hpos q (List.mem_cons_of_mem _ hq)
    by_cases ha0 : 0 < a
    · have hab : 0 < a + b := by linarith
      by_cases hle : p.size ≤ a
      · have hle2 : p.size ≤ a + b := by linarith
        have e : a + b - p.size = a - p.size + b := by ring
        have h := ih (a - p.size) hrest (by linarith)
        simp only [fifoChunks, fifoLedger, ha0, hle, hab, hle2, if_true, sumChunks_cons]
        rw [e]
        linarith
      · have hlt : a < p.size := not_le.mp hle
        simp only [fifoChunks, fifoLedger, ha0, hle, if_true, if_false, sumChunks_cons,
          sumChunks_nil]
        by_cases hb0 : 0 < b
        · by_cases hle2 : p.size - a ≤ b
          · have hle3 : p.size ≤ a + b := by linarith
            have e : a + b - p.size = b - (p.size - a) := by ring
            have h1 := hadd p a (p.size - a) ha (by linarith)
            have e2 : a + (p.size - a) = p.size := by ring
            rw [e2] at h1
            have h2 := hsize p (p.size - a) (p.size - a)
            simp only [fifoChunks, hb0, hle2, hab, hle3, if_true, sumChunks_cons]
            rw [e]
            linarith
          · have hle3 : ¬ p.size ≤ a + b := by
              intro h
              exact hle2 (by linarith)
            have h1 := hadd p a b ha hb
            have h2 := hsize p (p.size - a) b
            simp only [fifoChunks, hb0, hle2, hab, hle3, if_true, if_false, sumChunks_cons,
              sumChunks_nil]
            linarith
        · have hb' : b = 0 := le_antisymm (not_lt.mp hb0) hb
          subst hb'
          simp only [fifoChunks, lt_irrefl, if_false, add_zero, ha0, hle, if_true,
            sumChunks_cons, sumChunks_nil]
    · have ha' : a = 0 := le_antisymm (not_lt.mp ha0) ha
      subst ha'
      simp only [fifoChunks, fifoLedger, lt_irrefl, if_false, zero_add, sumChunks_nil]

theorem min_scale (px op x : ℚ) (hx : 0 ≤ x) : min (px * x) (x * op) = x * min px op := by
  rcases le_total px op with h | h
  · rw [min_eq_left h, min_eq_left (by nlinarith)]
    ring
  · rw [min_eq_right h, min_eq_right (by nlinarith)]

theorem max_scale (px op x : ℚ) (hx : 0 ≤ x) :
    max 0 (px * x - x * op) = x * max 0 (px - op) := by
  rcases le_total px op with h | h
  · have h1 : px * x - x * op ≤ 0 := by nlinarith
    have h2 : px - op ≤ 0 := by linarith
    rw [max_eq_left h1, max_eq_left h2]
    ring
  · have h1 : 0 ≤ px * x - x * op := by nlinarith
    have h2 : 0 ≤ px - op := by linarith
    rw [max_eq_right h1, max_eq_right h2]
    ring

theorem mkChunk_interest_add (px : ℚ) (time : Moment) (p : Position) (x y : ℚ) :
    (mkChunk px time p (x + y)).interest =
      (mkChunk px time p x).interest + (mkChunk px time p y).interest := by
  simp only [mkChunk, calculateInterest]
  ring

theorem mkChunk_toPool_add (px : ℚ) (time : Moment) (p : Position) (x y : ℚ)
    (hx : 0 ≤ x) (hy : 0 ≤ y) :
    (mkChunk px time p (x + y)).toPool =
      (mkChunk px time p x).toPool + (mkChunk px time p y).toPool := by
  simp only [mkChunk]
  rw [min_scale px p.openPrice (x + y) (by linarith), min_scale px p.openPrice x hx,
    min_scale px p.openPrice y hy]
  ring

theorem mkChunk_profit_add (px : ℚ) (time : Moment) (p : Position) (x y : ℚ)
    (hx : 0 ≤ x) (hy : 0 ≤ y) :
    (mkChunk px time p (x + y)).profit =
      (mkChunk px time p x).profit + (mkChunk px time p y).profit := by
  simp only [mkChunk]
  rw [max_scale px p.openPrice (x + y) (by linarith), max_scale px p.openPrice x hx,
    max_scale px p.openPrice y hy]
  ring

/-- Splitting a close when the subtractions of the loop are exact (rational
arithmetic, not the binary64 arithmetic of the program): on a ledger of
positive sizes, a Close Long of
size `a` followed by a Close Long of size `b` at the same price and time
(`a, b ≥ 0`) leaves the same ledger and the same pool balance as one Close Long
of size `a + b`, and the gross profit, the interest paid and the net profit
returned by the two closes add up to those returned by the single close. -/
theorem close_split (trade : Trade) (st : State) (a b : ℚ)
    (hpos : ∀ p ∈ st.openPositions, 0 < p.size) (ha : 0 ≤ a) (hb : 0 ≤ b) :
    (handleCloseLong { trade with sz := b }
        (handleCloseLong { trade with sz := a } st).2).2.openPositions =
      (handleCloseLong { trade with sz := a + b } st).2.openPositions ∧
    (handleCloseLong { trade with sz := b }
        (handleCloseLong { trade with sz := a } st).2).2.poolBalanceUSDC =
      (handleCloseLong { trade with sz := a + b } st).2.poolBalanceUSDC ∧
    (handleCloseLong { trade with sz := a } st).1.userGrossProfit +
        (handleCloseLong { trade with sz := b }
          (handleCloseLong { trade with sz := a } st).2).1.userGrossProfit =
      (handleCloseLong { trade with sz := a + b } st).1.userGrossProfit ∧
    (handleCloseLong { trade with sz := a } st).1.interestPaid +
        (handleCloseLong { trade with sz := b }
          (handleCloseLong { trade with sz := a } st).2).1.interestPaid =
      (handleCloseLong { trade with sz := a + b } st).1.interestPaid ∧
    (handleCloseLong { trade with sz := a } st).1.userNetProfit +
        (handleCloseLong { trade with sz := b }
          (handleCloseLong { trade with sz := a } st).2).1.userNetProfit =
      (handleCloseLong { trade with sz := a + b } st).1.userNetProfit := by
  have hled := fifoLedger_split b hb st.openPositions a hpos ha
  have hcredit := fifoChunks_split_sum trade.px trade.time (fun c => c.toPool + c.interest)
    (fun p x y hx hy => by
      simp only [mkChunk_toPool_add trade.px trade.time p x y hx hy,
        mkChunk_interest_add trade.px trade.time p x y]
      ring)
    (fun _ _ _ => rfl) b hb st.openPositions a hpos ha
  have hprofit := fifoChunks_split_sum trade.px trade.time (fun c => c.profit)
    (fun p x y hx hy => mkChunk_profit_add trade.px trade.time p x y hx hy)
    (fun _ _ _ => rfl) b hb st.openPositions a hpos ha
  have hinterest := fifoChunks_split_sum trade.px trade.time (fun c => c.interest)
    (fun p x y _ _ => mkChunk_interest_add trade.px trade.time p x y)
    (fun _ _ _ => rfl) b hb st.openPositions a hpos ha
  simp only [handleCloseLong, closeLongRun_eq]
  refine ⟨hled, ?_, hprofit, hinterest, ?_⟩
  · linarith
  · linarith

/-- Example of a split close: on the ledger of sizes 2, 2, 5, closing 3 and then 1
leaves the single position of size 5, as closing 4 at once does. -/
theorem close_split_witness :
    (∀ p ∈ demoState.openPositions, 0 < p.size) ∧
    (handleCloseLong { demoClose 0 with sz := 1 }
        (handleCloseLong { demoClose 0 with sz := 3 } demoState).2).2.openPositions =
      [⟨5, 300, utc 0⟩] ∧
    (handleCloseLong { demoClose 0 with sz := 3 + 1 } demoState).2.openPositions =
      [⟨5, 300, utc 0⟩] := by
  have hpos : ∀ p ∈ demoState.openPositions, 0 < p.size := by
    norm_num [demoState, demoLedger]
  have hE : (handleCloseLong { demoClose 0 with sz := 1 }
      (handleCloseLong { demoClose 0 with sz := 3 } demoState).2).2.openPositions =
      [⟨5, 300, utc 0⟩] := by
    norm_num [handleCloseLong, closeLongRun, closeLongLoop, closeLongInit, closeLongBody,
      demoState, demoLedger, demoClose, initialState]
  have h := close_split (demoClose 0) demoState 3 1 hpos (by norm_num) (by norm_num)
  refine ⟨hpos, hE, ?_⟩
  rw [← h.1]
  exact hE

/-! ## Execution in binary64 arithmetic: the matching loop ends -/

theorem binary64_round64_zero : Binary64.round64 0 = 0 := by
  simp [Binary64.round64]

theorem binary64_sub_self (a : ℚ) : Binary64.sub a a = 0 := by
  simp [Binary64.sub, binary64_round64_zero]

theorem binary64_closeLongLoop_done (trade : Trade) (fuel : Nat) (σ : CloseLoopState)
    (h : σ.remainingSize ≤ 0) : Binary64.closeLongLoop trade fuel σ = σ := by
  cases fuel with
  | zero => rfl
  | succ n =>
    unfold Binary64.closeLongLoop
    split
    · rfl
    · rw [if_neg (not_lt.mpr h)]

theorem binary64_closeLongLoop_exit (trade : Trade) :
    ∀ (fuel : Nat) (σ : CloseLoopState), σ.openPositions.length ≤ fuel →
      ¬ ((Binary64.closeLongLoop trade fuel σ).remainingSize > 0 ∧
          (Binary64.closeLongLoop trade fuel σ).openPositions.length > 0) := by
  intro fuel
  induction fuel with
  | zero =>
    intro σ h
    rintro ⟨_, h2⟩
    have h3 : (Binary64.closeLongLoop trade 0 σ).openPositions.length =
        σ.openPositions.length := rfl
    omega
  | succ n ih =>
    intro σ h
    unfold Binary64.closeLongLoop
    split
    · rename_i hnil
      rintro ⟨_, h2⟩
      rw [hnil] at h2
      simp at h2
    · rename_i p rest hcons
      by_cases hr : σ.remainingSize > 0
      · rw [if_pos hr]
        rcases le_total σ.remainingSize p.size with hle | hle
        · have hrem : (Binary64.closeLongBody trade σ p rest).remainingSize = 0 := by
            simp only [Binary64.closeLongBody, min_eq_left hle, binary64_sub_self]
          rw [binary64_closeLongLoop_done trade n _ (le_of_eq hrem)]
          rintro ⟨h1, _⟩
          rw [hrem] at h1
          exact lt_irrefl _ h1
        · have hled : (Binary64.closeLongBody trade σ p rest).openPositions = rest := by
            simp only [Binary64.closeLongBody, min_eq_right hle, binary64_sub_self, if_true]
          apply ih
          rw [hled]
          rw [hcons] at h
          simpa using h
      · rw [if_neg hr]
        rintro ⟨h1, _⟩
        exact hr h1

/-- In binary64 arithmetic too, the loop condition
`remainingSize > 0 && openPositions.length > 0` is false at the state returned
by `closeLongRun`: a difference `x - x` is exactly zero. -/
theorem binary64_closeLongRun_exit (trade : Trade) (st : State) :
    ¬ ((Binary64.closeLongRun trade st).remainingSize > 0 ∧
        (Binary64.closeLongRun trade st).openPositions.length > 0) :=
  binary64_closeLongLoop_exit trade st.openPositions.length (closeLongInit trade st) le_rfl

/-! ## Execution in binary64 arithmetic: rejected open -/

/-- C5. Rejected open is atomic: when the cost `px * sz` of an Open Long, the
binary64 product that `handleOpenLong` computes and compares, is strictly
greater than the pool balance, `handleOpenLong` leaves the balance, the
ledger, `totalLoss` and the three user totals unchanged (its only effect is the
console line), and the replay goes on with the next trade from that state. -/
theorem binary64_handleOpenLong_rejected (trade : Trade) (st : State)
    (h : st.poolBalanceUSDC < Binary64.mul trade.px trade.sz) :
    Binary64.handleOpenLong trade st =
      { st with console := st.console ++ [LogEvent.insufficientUSDC] } ∧
    (Binary64.handleOpenLong trade st).poolBalanceUSDC = st.poolBalanceUSDC ∧
    (Binary64.handleOpenLong trade st).openPositions = st.openPositions ∧
    (Binary64.handleOpenLong trade st).totalLoss = st.totalLoss ∧
    (Binary64.handleOpenLong trade st).totalUserGrossProfit = st.totalUserGrossProfit ∧
    (Binary64.handleOpenLong trade st).totalUserNetProfit = st.totalUserNetProfit ∧
    (Binary64.handleOpenLong trade st).totalInterestPaid = st.totalInterestPaid ∧
    ∀ (coin : String) (rest : List Trade), trade.coin = coin →
      includes trade.dir "Open Long" = true →
      Binary64.forEachTrade coin (trade :: rest) st =
        Binary64.forEachTrade coin rest
          { st with console := st.console ++ [LogEvent.insufficientUSDC] } := by
  have hrej : Binary64.handleOpenLong trade st =
      { st with console := st.console ++ [LogEvent.insufficientUSDC] } := by
    unfold Binary64.handleOpenLong
    simp only [ge_iff_le]
    rw [if_neg (not_le.mpr h)]
  refine ⟨hrej, ?_, ?_, ?_, ?_, ?_, ?_, ?_⟩
  · rw [hrej]
  · rw [hrej]
  · rw [hrej]
  · rw [hrej]
  · rw [hrej]
  · rw [hrej]
  · intro coin rest hc hd
    simp only [Binary64.forEachTrade, List.foldl_cons, Binary64.processTrade, hc, hd, if_true]
    rw [hrej]

/-- Witness for C5: an open of 10 units at 100, of computed cost 1000, against
a balance of 999 is rejected and the balance stays 999. -/
theorem binary64_handleOpenLong_rejected_witness :
    Binary64.mul scenario1Open.px scenario1Open.sz = 1000 ∧
    ({ initialState with poolBalanceUSDC := 999 } : State).poolBalanceUSDC <
      Binary64.mul scenario1Open.px scenario1Open.sz ∧
    (Binary64.handleOpenLong scenario1Open
      { initialState with poolBalanceUSDC := 999 }).poolBalanceUSDC = 999 ∧
    (Binary64.handleOpenLong scenario1Open
      { initialState with poolBalanceUSDC := 999 }).openPositions = [] :=
  ⟨by decide!, by decide!,
    (binary64_handleOpenLong_rejected scenario1Open { initialState with poolBalanceUSDC := 999 }
      (by decide!)).2.1,
    (binary64_handleOpenLong_rejected scenario1Open { initialState with poolBalanceUSDC := 999 }
      (by decide!)).2.2.1⟩

/-- The guard of `handleOpenLong` is decided on the computed cost, not on the
exact product: for `roundedCostOpen` the exact product `px * sz` exceeds the
initial balance by `2 ^ (-27)`, the computed cost equals the balance, and the
open is accepted, leaving a balance of 0 and one position. -/
theorem binary64_handleOpenLong_rounded_cost :
    roundedCostOpen.px * roundedCostOpen.sz - initialState.poolBalanceUSDC = 1 / 134217728 ∧
    Binary64.mul roundedCostOpen.px roundedCostOpen.sz = initialState.poolBalanceUSDC ∧
    (Binary64.handleOpenLong roundedCostOpen initialState).poolBalanceUSDC = 0 ∧
    (Binary64.handleOpenLong roundedCostOpen initialState).openPositions.length = 1 :=
  ⟨by decide!, by decide!, by decide!, by decide!⟩

/-! ## Execution in binary64 arithmetic: residue of the size subtractions -/

/-- C7 (the code at the failing input). After Open Long 0.1, 0.1 and 0.2 the
total open size is exactly the size of a Close Long 0.4, so nothing is
over-closed; the loop computes `0.4 - 0.1 - 0.1 - 0.2` in binary64, which
leaves `remainingSize = 2 ^ (-55)`, and `handleCloseLong` prints the over-close
warning with that excess. After Open Long 0.1, 0.3 and 0.9, a Close Long 1.3
asks for more than is open; the loop ends with `remainingSize = 0`, prints no
warning and leaves a position of size `2 ^ (-53)` in the ledger. -/
theorem binary64_over_close_residue :
    (totalOpenSize exactCloseState.openPositions = (floatClose 0.4).sz ∧
      (Binary64.closeLongRun (floatClose 0.4) exactCloseState).remainingSize =
        1 / 36028797018963968 ∧
      (Binary64.handleCloseLong (floatClose 0.4) exactCloseState).2.openPositions = [] ∧
      LogEvent.overCloseWarning (1 / 36028797018963968) ∈
        (Binary64.handleCloseLong (floatClose 0.4) exactCloseState).2.console) ∧
    (totalOpenSize residueState.openPositions < (floatClose 1.3).sz ∧
      (Binary64.closeLongRun (floatClose 1.3) residueState).remainingSize = 0 ∧
      (Binary64.handleCloseLong (floatClose 1.3) residueState).2.openPositions =
        [⟨1 / 9007199254740992, 100, utc 0⟩] ∧
      (Binary64.handleCloseLong (floatClose 1.3) residueState).2.console.any
        isOverCloseWarning = false) :=
  ⟨⟨by decide!, by decide!, by decide!, by decide!⟩,
    ⟨by decide!, by decide!, by decide!, by decide!⟩⟩

/-- C15 (the code at the failing input). With positions of sizes 0.1 and 0.4
open, the sizes of Close Long 0.2 and Close Long 0.3 add up exactly to the size
of Close Long 0.5. The single close empties the ledger; the two closes in a row
leave a position of size `2 ^ (-54)`, because `(0.4 - 0.1) - 0.3` is not zero
in binary64 and the head is removed only when its size is exactly zero. -/
theorem binary64_close_split_residue :
    (∀ p ∈ splitState.openPositions, 0 < p.size) ∧
    0 ≤ (floatClose 0.2).sz ∧ 0 ≤ (floatClose 0.3).sz ∧
    (floatClose 0.2).sz + (floatClose 0.3).sz = (floatClose 0.5).sz ∧
    (Binary64.handleCloseLong (floatClose 0.3)
        (Binary64.handleCloseLong (floatClose 0.2) splitState).2).2.openPositions =
      [⟨1 / 18014398509481984, 100, utc 0⟩] ∧
    (Binary64.handleCloseLong (floatClose 0.5) splitState).2.openPositions = [] :=
  ⟨by decide!, by decide!, by decide!, by decide!, by decide!, by decide!⟩

end HyperliquidBacktest
